import Mathlib

/-!
# Verification of the cryptocontainer-lab scanning engine and case ledger

A shallow embedding, in Lean 4, of the Python sources of
`cryptocontainer_lab` (signature scanner, entropy heuristic, directory
walker, case ledger, unlock/crack stubs, and the case (de)serialisation),
together with theorems settling the specification claims C1 to C10.

Modelling conventions:
* Python `bytes` values are `List Nat` (byte values).
* Python `float` values are `ℝ` (exact real arithmetic in place of IEEE
  doubles; all float constants in the source are short decimal literals).
* Python `pathlib.Path` values are `String` (a `Path` and its `str` form
  are interconvertible; `Path(str(p)) == p` in Python).
* `datetime` values are `Nat` tick counts; `isoformat`/`fromisoformat`
  become an injective decimal rendering and its partial inverse.
* Python exceptions become `Except String`; `None`-able results become
  `Option`.
* `uuid.uuid4()` identifiers are external randomness: where the scanner
  attaches a fresh `candidate_id` we omit the field (no claim mentions
  it); where the ledger needs a fresh identifier it is passed as an
  explicit argument.
* Unbounded `while` loops become fuel-indexed structural recursion; the
  fuel passed at each call site is proved (or immediately seen) to be
  sufficient.
-/

namespace CryptoLab

/-! ## detector/signatures.py -/

/-- Magic bytes of a BitLocker volume header: the ASCII string -FVE-FS-. -/
def BITLOCKER_HEADER : List Nat := [45, 70, 86, 69, 45, 70, 83, 45]

/-- Magic bytes of a LUKS header: LUKS then 0xBA 0xBE. -/
def LUKS_MAGIC : List Nat := [76, 85, 75, 83, 186, 190]

/-- File extensions conventionally used for VeraCrypt/TrueCrypt volumes. -/
def VERACRYPT_EXTENSIONS : List String := [".hc", ".tc"]

/-- Fixed probe offsets scanned eagerly. -/
def DEFAULT_SCAN_OFFSETS : List Nat := [0, 4096, 65536]

/-- Number of bytes read at each probe offset. -/
def HEADER_WINDOW : Nat := 8192

/-! ## core/models.py: enumerations -/

/-- Known container types (`ContainerType` in models.py). -/
inductive ContainerType where
  | bitlocker
  | veracrypt
  | truecrypt
  | luks
  | unknown
deriving DecidableEq

/-- Types of evidence (`EvidenceType` in models.py). -/
inductive EvidenceType where
  | disk_image
  | memory_dump
  | config
  | other
deriving DecidableEq

/-- Categorisation of artefacts (`ArtefactType` in models.py). -/
inductive ArtefactType where
  | os_context
  | memory
  | detection
  | other
deriving DecidableEq

/-- Status of an unlock attempt (`UnlockResult` in models.py). -/
inductive UnlockResult where
  | success
  | failure
  | error
deriving DecidableEq

/-! ## detector/scanner.py: candidate records produced by `_scan_block`

`_scan_block` constructs its candidates with the keyword arguments
`candidate_id`, `source_path`, `offset`, `container_type`, `confidence`,
`notes`.  `ScanCandidate` is the record shape of those constructions
(minus `candidate_id`, which is a fresh `uuid4` string no claim refers
to).  Note that this shape does NOT match the `ContainerCandidate`
dataclass of core/models.py, which has an `evidence_id` field and no
`source_path` field; `scannerCtorOk` below records that mismatch and the
checked scanner variant reproduces the resulting `TypeError`. -/
structure ScanCandidate where
  source_path : String
  offset : Nat
  container_type : ContainerType
  confidence : ℝ
  notes : String

/-- Dataclass fields of `ContainerCandidate` in core/models.py. -/
def containerCandidateFields : List String :=
  ["candidate_id", "evidence_id", "offset", "container_type", "confidence", "notes"]

/-- Keyword arguments used by scanner.py when constructing a candidate. -/
def scannerCtorKwargs : List String :=
  ["candidate_id", "source_path", "offset", "container_type", "confidence", "notes"]

/-- Whether every keyword argument passed by scanner.py is a dataclass
field of `ContainerCandidate`; a Python dataclass call with an unexpected
keyword raises `TypeError`. -/
def scannerCtorOk : Bool :=
  scannerCtorKwargs.all (fun k => containerCandidateFields.contains k)

/-! ## Byte-string search: Python `needle in hay` and `hay.index(needle)` -/

/-- First index at or after position `i` where `needle` occurs in `hay`
(Python `bytes.index` semantics; an empty needle matches at 0). -/
def subMatchAux (needle : List Nat) : List Nat → Nat → Option Nat
  | [], i => if needle.isPrefixOf [] then some i else none
  | h :: t, i =>
    if needle.isPrefixOf (h :: t) then some i else subMatchAux needle t (i + 1)

/-- Index of the first occurrence of `needle` inside `hay`, if any:
Python `hay.index(needle)`, with `needle in hay` given by `Option.isSome`. -/
def bytesFind? (needle hay : List Nat) : Option Nat := subMatchAux needle hay 0

/-- Embedding of `_scan_block`: the candidates the generator yields for
one block, in yield order.  Each magic sequence contributes at most one
candidate, at the FIRST occurrence inside the block (Python
`block.index`). -/
def scanBlock (block : List Nat) (offset : Nat) (sourcePath : String) :
    List ScanCandidate :=
  (match bytesFind? BITLOCKER_HEADER block with
    | some i =>
      [⟨sourcePath, offset + i, ContainerType.bitlocker, 0.9,
        "Сигнатура заголовка BitLocker (FVE-FS)."⟩]
    | none => []) ++
  (match bytesFind? LUKS_MAGIC block with
    | some i =>
      [⟨sourcePath, offset + i, ContainerType.luks, 0.9,
        "Сигнатура заголовка LUKS."⟩]
    | none => [])

/-! ## detector/heuristics.py -/

/-- Embedding of `estimate_entropy`: Shannon entropy in bits per byte over
the byte-value histogram of the window; 0 for empty input. -/
noncomputable def estimate_entropy (data : List Nat) : ℝ :=
  if data = [] then 0
  else
    ∑ b in data.toFinset,
      -(((data.count b : ℝ) / data.length) *
        Real.logb 2 ((data.count b : ℝ) / data.length))

/-! ## pathlib: the fragment of `Path.suffix` and `str.lower` the scanner uses -/

/-- ASCII lower-casing (the extensions compared against are ASCII). -/
def asciiLower (s : String) : String :=
  (s.toList.map fun c =>
    if 65 ≤ c.toNat ∧ c.toNat ≤ 90 then Char.ofNat (c.toNat + 32) else c).asString

/-- Splitting a character list on a separator (kernel-reducible
replacement for `String.splitOn` with a single-character separator). -/
def splitChar (sep : Char) (cs : List Char) : List (List Char) :=
  cs.foldr
    (fun c acc =>
      match acc with
      | [] => [[c]]
      | a :: rest => if c = sep then [] :: a :: rest else (c :: a) :: rest)
    [[]]

/-- Final path component (name) of a POSIX-style path string. -/
def pathFileName (s : String) : String :=
  ((splitChar '/' s.toList).getLastD []).asString

/-- Embedding of `pathlib.PurePath.suffix`: the extension of the final
component, from its last dot, empty when the dot is leading, trailing or
absent. -/
def pathSuffix (s : String) : String :=
  let cs := (pathFileName s).toList
  match cs.reverse.findIdx? (fun c => c = '.') with
  | none => ""
  | some irev =>
    let i := cs.length - 1 - irev
    if 0 < i ∧ i < cs.length - 1 then (cs.drop i).asString else ""

/-- `file_path.suffix.lower()` as used by `_veracrypt_confidence`. -/
def pathSuffixLower (s : String) : String := asciiLower (pathSuffix s)

/-- Embedding of `_veracrypt_confidence`: heuristic confidence for
VeraCrypt/TrueCrypt candidates, `none` unless the file extension matches. -/
noncomputable def veracrypt_confidence (filePath : String)
    (headerBlock : List Nat) : Option ℝ :=
  if pathSuffixLower filePath ∈ VERACRYPT_EXTENSIONS then
    if headerBlock = [] then some 0.35
    else if headerBlock.length < 1024 then some 0.4
    else
      let entropy := estimate_entropy (headerBlock.take 4096)
      if 7.2 ≤ entropy then some 0.65
      else if 6.8 ≤ entropy then some 0.5
      else some 0.4
  else none

/-! ## scan_file_for_containers: dedup bookkeeping and the two phases -/

/-- The deduplication key of a candidate: its (container kind, offset)
pair, matching `seen` in `scan_file_for_containers`. -/
def candKey (c : ScanCandidate) : ContainerType × Nat :=
  (c.container_type, c.offset)

/-- Consuming a batch of `_scan_block` yields: each candidate is appended
unless its (kind, offset) key was already seen (the dedup `continue`). -/
def dedupAdd : List (ContainerType × Nat) → List ScanCandidate →
    List ScanCandidate → List (ContainerType × Nat) × List ScanCandidate
  | seen, disc, [] => (seen, disc)
  | seen, disc, c :: rest =>
    if candKey c ∈ seen then dedupAdd seen disc rest
    else dedupAdd (candKey c :: seen) (disc ++ [c]) rest

/-- One iteration of the probe loop of `scan_file_for_containers`. -/
def probeStep (path : String) (file : List Nat)
    (st : List Nat × List (ContainerType × Nat) × List ScanCandidate) (off : Nat) :
    List Nat × List (ContainerType × Nat) × List ScanCandidate :=
  let block := (file.drop off).take HEADER_WINDOW
  let hb := if off = 0 then block else st.1
  let sd := dedupAdd st.2.1 st.2.2 (scanBlock block off path)
  (hb, sd.1, sd.2)

/-- Phase A of `scan_file_for_containers`: probe each fixed offset with a
`HEADER_WINDOW`-sized read; the offset-0 block is retained as the header
block for the heuristic fallback.  Reads past end of file yield `[]`. -/
def probePhase (path : String) (file : List Nat) :
    List Nat × List (ContainerType × Nat) × List ScanCandidate :=
  DEFAULT_SCAN_OFFSETS.foldl (probeStep path file) ([], [], [])

/-- The dedup invariant carried through a file scan: the discovered
candidates have pairwise-distinct (kind, offset) keys, every discovered
non-VeraCrypt candidate has its key in `seen`, and everything in `seen`
is the key of some discovered candidate. -/
def SeenInv (seen : List (ContainerType × Nat)) (disc : List ScanCandidate) : Prop :=
  (disc.map candKey).Nodup ∧
  (∀ c ∈ disc, c.container_type = ContainerType.veracrypt ∨ candKey c ∈ seen) ∧
  (∀ k ∈ seen, k ∈ disc.map candKey)

/-- The heuristic fallback of `scan_file_for_containers`: when no
VeraCrypt/TrueCrypt candidate was discovered and `_veracrypt_confidence`
returns a score, one extra VeraCrypt candidate at offset 0 is appended
(note that in the source this runs after the probes and BEFORE the
streaming sweep). -/
noncomputable def fallbackPhase (path : String) (headerBlock : List Nat)
    (disc : List ScanCandidate) : List ScanCandidate :=
  if disc.any (fun c =>
      c.container_type == ContainerType.veracrypt ||
      c.container_type == ContainerType.truecrypt) then disc
  else
    match veracrypt_confidence path headerBlock with
    | none => disc
    | some conf =>
      disc ++ [⟨path, 0, ContainerType.veracrypt, conf,
        if 0.6 ≤ conf then
          "Высокая энтропия заголовка и типичное расширение VeraCrypt/TrueCrypt."
        else
          "Типичное расширение VeraCrypt/TrueCrypt (эвристика)."⟩]

/-- Maximum magic length over the known signatures. -/
def max_signature_len : Nat := max BITLOCKER_HEADER.length LUKS_MAGIC.length

/-- Tail overlap retained across chunk boundaries in the streaming sweep. -/
def sweepOverlap : Nat := max_signature_len - 1

/-- Phase B of `scan_file_for_containers`: the streaming sweep.  Reads
chunks of `blockSize` bytes; the previous tail is prepended and match
offsets are corrected by the tail length (`base_offset = offset -
len(tail)`); the last `sweepOverlap` bytes of each chunk become the next
tail.  The Python `while True` loop is given `file.length + 1` fuel at
the call site, which is sufficient because every non-final iteration
consumes at least one byte. -/
def sweepLoop (path : String) (file : List Nat) (blockSize : Nat) :
    Nat → Nat → List Nat → List (ContainerType × Nat) → List ScanCandidate →
    List (ContainerType × Nat) × List ScanCandidate
  | 0, _, _, seen, disc => (seen, disc)
  | fuel + 1, pos, tail, seen, disc =>
    let block := (file.drop pos).take blockSize
    if block = [] then (seen, disc)
    else
      let sd := dedupAdd seen disc (scanBlock (tail ++ block) (pos - tail.length) path)
      let tail1 := if 0 < sweepOverlap then block.drop (block.length - sweepOverlap) else []
      sweepLoop path file blockSize fuel (pos + block.length) tail1 sd.1 sd.2

/-- Embedding of `scan_file_for_containers`, with the candidate
constructions succeeding.  Modelled from the spec: in the src snapshot
every candidate construction raises `TypeError` (scanner.py passes the
keyword `source_path`, which `core.models.ContainerCandidate` does not
have — see `scannerCtorOk` and `scan_file_checked`); this definition is
the scanner the spec describes, i.e. the same control flow with the
constructions repaired to the record shape scanner.py itself uses. -/
noncomputable def scan_file_for_containers (path : String) (file : List Nat)
    (blockSize : Nat) : List ScanCandidate :=
  let pr := probePhase path file
  let disc1 := fallbackPhase path pr.1 pr.2.2
  (sweepLoop path file blockSize (file.length + 1) 0 [] pr.2.1 disc1).2

/-! ## The checked scanner: faithful to the `TypeError` in the src snapshot -/

/-- Error projection of an `Except` value. -/
def exceptError? : Except String α → Option String
  | Except.error e => some e
  | Except.ok _ => none

/-- Consuming `_scan_block` yields under real Python semantics: advancing
the generator constructs a `ContainerCandidate`, which raises `TypeError`
because of the `source_path` keyword (`scannerCtorOk` is false). -/
def consumeScanBlock (cands : List ScanCandidate)
    (seen : List (ContainerType × Nat)) (disc : List ScanCandidate) :
    Except String (List (ContainerType × Nat) × List ScanCandidate) :=
  match cands with
  | [] => Except.ok (seen, disc)
  | _ :: _ =>
    if scannerCtorOk then Except.ok (dedupAdd seen disc cands)
    else Except.error
      "TypeError: ContainerCandidate.__init__ got an unexpected keyword argument source_path"

/-- Phase A with faithful construction semantics. -/
def probePhaseChecked (path : String) (file : List Nat) :
    Except String (List Nat × List (ContainerType × Nat) × List ScanCandidate) :=
  DEFAULT_SCAN_OFFSETS.foldlM
    (fun st off => do
      let block := (file.drop off).take HEADER_WINDOW
      let hb := if off = 0 then block else st.1
      let sd ← consumeScanBlock (scanBlock block off path) st.2.1 st.2.2
      pure (hb, sd.1, sd.2))
    ([], [], [])

/-- The heuristic fallback with faithful construction semantics: the
appended VeraCrypt candidate is also constructed with the `source_path`
keyword and so also raises. -/
noncomputable def fallbackPhaseChecked (path : String) (headerBlock : List Nat)
    (disc : List ScanCandidate) : Except String (List ScanCandidate) :=
  if disc.any (fun c =>
      c.container_type == ContainerType.veracrypt ||
      c.container_type == ContainerType.truecrypt) then Except.ok disc
  else
    match veracrypt_confidence path headerBlock with
    | none => Except.ok disc
    | some conf =>
      if scannerCtorOk then
        Except.ok (disc ++ [⟨path, 0, ContainerType.veracrypt, conf,
          if 0.6 ≤ conf then
            "Высокая энтропия заголовка и типичное расширение VeraCrypt/TrueCrypt."
          else
            "Типичное расширение VeraCrypt/TrueCrypt (эвристика)."⟩])
      else Except.error
        "TypeError: ContainerCandidate.__init__ got an unexpected keyword argument source_path"

/-- Phase B with faithful construction semantics. -/
def sweepLoopChecked (path : String) (file : List Nat) (blockSize : Nat) :
    Nat → Nat → List Nat → List (ContainerType × Nat) → List ScanCandidate →
    Except String (List (ContainerType × Nat) × List ScanCandidate)
  | 0, _, _, seen, disc => Except.ok (seen, disc)
  | fuel + 1, pos, tail, seen, disc =>
    let block := (file.drop pos).take blockSize
    if block = [] then Except.ok (seen, disc)
    else do
      let sd ← consumeScanBlock (scanBlock (tail ++ block) (pos - tail.length) path)
        seen disc
      let tail1 := if 0 < sweepOverlap then block.drop (block.length - sweepOverlap) else []
      sweepLoopChecked path file blockSize fuel (pos + block.length) tail1 sd.1 sd.2

/-- Embedding of `scan_file_for_containers` exactly as in the src
snapshot: any candidate construction raises `TypeError`, which propagates
out of the scan. -/
noncomputable def scan_file_checked (path : String) (file : List Nat)
    (blockSize : Nat) : Except String (List ScanCandidate) := do
  let pr ← probePhaseChecked path file
  let disc1 ← fallbackPhaseChecked path pr.1 pr.2.2
  let r ← sweepLoopChecked path file blockSize (file.length + 1) 0 [] pr.2.1 disc1
  pure r.2

/-! ## scan_path_for_containers

The orchestrator is modelled over the path sequence produced by
`_iter_files` together with each file's readability: `listing` pairs each
yielded path with either its byte content or the exception its read
raises.  The `FileNotFoundError` precondition check on the root and the
logging calls are outside the embedded fragment. -/

/-- Events reported to the caller-supplied sink, in emission order. -/
inductive ScanEvent where
  | progress (path : String)
  | result (cand : ScanCandidate)
  | error (path : String) (message : String)

/-- Per-path step of `scan_path_for_containers`. -/
noncomputable def pathStep (blockSize : Nat)
    (acc : List ScanCandidate × List ScanEvent)
    (entry : String × Except String (List Nat)) :
    List ScanCandidate × List ScanEvent :=
  match entry.2 with
  | Except.error e =>
    (acc.1, acc.2 ++ [ScanEvent.progress entry.1, ScanEvent.error entry.1 e])
  | Except.ok bytes =>
    let cands := scan_file_for_containers entry.1 bytes blockSize
    (acc.1 ++ cands,
      acc.2 ++ ScanEvent.progress entry.1 :: cands.map ScanEvent.result)

/-- Embedding of `scan_path_for_containers`: per path, `on_progress`
first; a failing `scan_file_for_containers` is caught, reported through
`on_error` and skipped; candidates of a successful scan are appended and
reported through `on_result`. -/
noncomputable def scan_path_for_containers
    (listing : List (String × Except String (List Nat))) (blockSize : Nat) :
    List ScanCandidate × List ScanEvent :=
  listing.foldl (pathStep blockSize) ([], [])

/-- The candidates one listing entry contributes to the final result. -/
noncomputable def entryResults (blockSize : Nat)
    (entry : String × Except String (List Nat)) : List ScanCandidate :=
  match entry.2 with
  | Except.ok bytes => scan_file_for_containers entry.1 bytes blockSize
  | Except.error _ => []

/-- The events one listing entry contributes to the sink. -/
noncomputable def entryEvents (blockSize : Nat)
    (entry : String × Except String (List Nat)) : List ScanEvent :=
  match entry.2 with
  | Except.error e => [ScanEvent.progress entry.1, ScanEvent.error entry.1 e]
  | Except.ok bytes =>
    ScanEvent.progress entry.1 ::
      (scan_file_for_containers entry.1 bytes blockSize).map ScanEvent.result

/-- Whether an event is an error event for path `p`. -/
def isErrorEventFor (p : String) : ScanEvent → Bool
  | ScanEvent.error q _ => q = p
  | _ => false

/-! ## _iter_files: the directory walker

The filesystem is modelled as a finite tree of directories (POSIX hard
directory structure is acyclic; cycles arise only through symbolic links
and reparse points, which carry the identity of their target and are
modelled as separate entry kinds).  A directory carries its (st_dev,
st_ino) identity pair.  Walk order follows `os.walk(topdown=True)`: a
directory's files are yielded first (in listing order), then the
surviving subdirectories are descended in listing order; pruning skips
symlinks, reparse points, and directories whose identity pair is already
in the `visited` set, adding every accepted identity before any descent. -/

mutual
inductive FsDir where
  | mk (ident : Nat × Nat) (entries : FsEntries)

inductive FsEntries where
  | nil
  | cons (e : FsEntry) (rest : FsEntries)

inductive FsEntry where
  | file (name : String)
  | dir (name : String) (d : FsDir)
  | symlinkDir (name : String) (d : FsDir)
  | reparseDir (name : String) (d : FsDir)
end

/-- Identity pair of a directory node. -/
def FsDir.ident : FsDir → Nat × Nat
  | FsDir.mk i _ => i

/-- Entry list of a directory node. -/
def FsDir.entries : FsDir → FsEntries
  | FsDir.mk _ es => es

/-- The pruning pass over one directory listing (the `safe_dirnames`
loop): symlinks and reparse points are skipped outright; a real
subdirectory survives iff its identity pair is not yet visited, in which
case the pair is added to `visited` immediately.  Returns one keep-flag
per entry plus the updated visited set. -/
def pruneEntries : FsEntries → List (Nat × Nat) → List Bool × List (Nat × Nat)
  | FsEntries.nil, visited => ([], visited)
  | FsEntries.cons e rest, visited =>
    match e with
    | FsEntry.dir _ d =>
      if d.ident ∈ visited then
        let pr := pruneEntries rest visited
        (false :: pr.1, pr.2)
      else
        let pr := pruneEntries rest (d.ident :: visited)
        (true :: pr.1, pr.2)
    | _ =>
      let pr := pruneEntries rest visited
      (false :: pr.1, pr.2)

/-- File paths listed directly in a directory (the `filenames` loop). -/
def entryFiles (dirPath : String) : FsEntries → List String
  | FsEntries.nil => []
  | FsEntries.cons (FsEntry.file n) rest => (dirPath ++ "/" ++ n) :: entryFiles dirPath rest
  | FsEntries.cons _ rest => entryFiles dirPath rest

mutual
/-- Walk of one directory: prune the child listing (updating `visited`
for every accepted child before any descent), yield this directory's
files, then descend the kept children in order. -/
def walkDir (dirPath : String) (d : FsDir) (visited : List (Nat × Nat)) :
    List String × List (Nat × Nat) :=
  match d with
  | FsDir.mk _ entries =>
    let pr := pruneEntries entries visited
    let below := walkEntrs dirPath entries pr.1 pr.2
    (entryFiles dirPath entries ++ below.1, below.2)

/-- Descent into the children marked kept by the pruning pass, threading
the visited set left to right. -/
def walkEntrs (dirPath : String) :
    FsEntries → List Bool → List (Nat × Nat) → List String × List (Nat × Nat)
  | FsEntries.nil, _, visited => ([], visited)
  | FsEntries.cons e rest, flags, visited =>
    match e, flags with
    | FsEntry.dir n d, true :: fl =>
      let sub := walkDir (dirPath ++ "/" ++ n) d visited
      let rr := walkEntrs dirPath rest fl sub.2
      (sub.1 ++ rr.1, rr.2)
    | _, _ :: fl => walkEntrs dirPath rest fl visited
    | _, [] => walkEntrs dirPath rest [] visited
end

/-- A scan root: a single file (yield just that path) or a directory. -/
inductive FsRoot where
  | file (path : String)
  | dir (path : String) (d : FsDir)

/-- Embedding of `_iter_files`. -/
def iter_files : FsRoot → List String
  | FsRoot.file p => [p]
  | FsRoot.dir p d => (walkDir p d []).1

mutual
/-- The real (non-symlink-reachable-only) files below a directory, in
depth-first order with a directory's own files first: the reference
listing the walker should produce. -/
def realFilesDir (dirPath : String) (d : FsDir) : List String :=
  match d with
  | FsDir.mk _ es => entryFiles dirPath es ++ realFilesEntries dirPath es

/-- Real files contributed by an entry list. -/
def realFilesEntries (dirPath : String) : FsEntries → List String
  | FsEntries.nil => []
  | FsEntries.cons (FsEntry.dir n d) rest =>
    realFilesDir (dirPath ++ "/" ++ n) d ++ realFilesEntries dirPath rest
  | FsEntries.cons _ rest => realFilesEntries dirPath rest
end

mutual
/-- Identity pairs of all real directories strictly below a directory. -/
def dirIdentsDir (d : FsDir) : List (Nat × Nat) :=
  match d with
  | FsDir.mk _ es => dirIdentsEntries es

/-- Identity pairs of real directories reachable from an entry list. -/
def dirIdentsEntries : FsEntries → List (Nat × Nat)
  | FsEntries.nil => []
  | FsEntries.cons (FsEntry.dir _ d) rest =>
    d.ident :: (dirIdentsDir d ++ dirIdentsEntries rest)
  | FsEntries.cons _ rest => dirIdentsEntries rest
end

/-- Identity pairs of the immediate real subdirectories in a listing. -/
def childIdents : FsEntries → List (Nat × Nat)
  | FsEntries.nil => []
  | FsEntries.cons (FsEntry.dir _ d) rest => d.ident :: childIdents rest
  | FsEntries.cons _ rest => childIdents rest

/-- Identity pairs of real directories strictly below the immediate
children of a listing. -/
def deepIdents : FsEntries → List (Nat × Nat)
  | FsEntries.nil => []
  | FsEntries.cons (FsEntry.dir _ d) rest => dirIdentsDir d ++ deepIdents rest
  | FsEntries.cons _ rest => deepIdents rest

/-- The keep-flags the pruning pass produces when nothing is pruned:
true exactly at real subdirectory entries. -/
def dirFlags : FsEntries → List Bool
  | FsEntries.nil => []
  | FsEntries.cons (FsEntry.dir _ _) rest => true :: dirFlags rest
  | FsEntries.cons _ rest => false :: dirFlags rest

/-- Demonstration subdirectory: contains a file and a symbolic link
pointing back to the root directory (identity (1, 1)). -/
def demoSub : FsDir :=
  FsDir.mk (1, 2)
    (FsEntries.cons (FsEntry.file "b")
      (FsEntries.cons (FsEntry.symlinkDir "loop" (FsDir.mk (1, 1) FsEntries.nil))
        FsEntries.nil))

/-- Demonstration root directory with a symlink cycle below it. -/
def demoRoot : FsDir :=
  FsDir.mk (1, 1)
    (FsEntries.cons (FsEntry.file "a")
      (FsEntries.cons (FsEntry.dir "sub" demoSub) FsEntries.nil))

/-! ## core/models.py: entity records -/

/-- Evidence item (`Evidence` dataclass). -/
structure Evidence where
  evidence_id : String
  path : String
  description : String
  evidence_type : EvidenceType
  sha256 : String
  size : Nat

/-- Container candidate as recorded in a case (`ContainerCandidate`
dataclass of core/models.py, with its `evidence_id` field). -/
structure ContainerCandidate where
  candidate_id : String
  evidence_id : String
  offset : Nat
  container_type : ContainerType
  confidence : ℝ
  notes : String

/-- Collected artefact (`Artefact` dataclass). -/
structure Artefact where
  artefact_id : String
  description : String
  source : String
  artefact_type : ArtefactType
  path : Option String
  timestamp : Option Nat

/-- Timeline entry (`TimelineEvent` dataclass). -/
structure TimelineEvent where
  description : String
  timestamp : Nat
  artefact_id : Option String

/-- Chain-of-custody entry (`CustodyEvent` dataclass). -/
structure CustodyEvent where
  timestamp : Nat
  actor : String
  action : String

/-- Recorded unlock trial (`UnlockAttempt` dataclass). -/
structure UnlockAttempt where
  container_id : String
  method : String
  secret_id : String
  result : UnlockResult
  message : String

/-- Case metadata (`CaseMetadata` dataclass). -/
structure CaseMetadata where
  case_id : String
  examiner : Option String
  created_at : Nat

/-- Full case record (`Case` dataclass). -/
structure Case where
  root_path : String
  metadata : CaseMetadata
  evidence : List Evidence
  containers : List ContainerCandidate
  artefacts : List Artefact
  timeline : List TimelineEvent
  unlock_attempts : List UnlockAttempt
  custody_log : List CustodyEvent

/-! ## Serialisation: `isoformat` / `fromisoformat` and enum values

`datetime` values are `Nat` ticks; `isoformat` becomes the (injective)
decimal rendering and `fromisoformat` its partial inverse, failing on
anything that is not a plain decimal numeral — the faithful shape of
"render to an ISO string / parse it back or raise ValueError". -/

/-- Decimal rendering of a tick count (stands in for `isoformat`). -/
def isoformat (n : Nat) : String :=
  if n = 0 then "0"
  else ((Nat.digits 10 n).reverse.map fun d => Char.ofNat (48 + d)).asString

/-- Parse a decimal numeral back to ticks (stands in for
`fromisoformat`), `none` on malformed input. -/
def fromisoformat? (s : String) : Option Nat :=
  let cs := s.toList
  if cs = [] then none
  else if cs.all Char.isDigit then
    some (cs.foldl (fun a c => a * 10 + (c.toNat - 48)) 0)
  else none

/-- Serialised tag of a container type (Python `Enum.value`). -/
def ContainerType.value : ContainerType → String
  | ContainerType.bitlocker => "bitlocker"
  | ContainerType.veracrypt => "veracrypt"
  | ContainerType.truecrypt => "truecrypt"
  | ContainerType.luks => "luks"
  | ContainerType.unknown => "unknown"

/-- Parse a container-type tag (Python `ContainerType(value)`, which
raises `ValueError` on an unknown tag). -/
def ContainerType.parse? (s : String) : Option ContainerType :=
  if s = "bitlocker" then some ContainerType.bitlocker
  else if s = "veracrypt" then some ContainerType.veracrypt
  else if s = "truecrypt" then some ContainerType.truecrypt
  else if s = "luks" then some ContainerType.luks
  else if s = "unknown" then some ContainerType.unknown
  else none

/-- Serialised tag of an evidence type. -/
def EvidenceType.value : EvidenceType → String
  | EvidenceType.disk_image => "disk_image"
  | EvidenceType.memory_dump => "memory_dump"
  | EvidenceType.config => "config"
  | EvidenceType.other => "other"

/-- Parse an evidence-type tag. -/
def EvidenceType.parse? (s : String) : Option EvidenceType :=
  if s = "disk_image" then some EvidenceType.disk_image
  else if s = "memory_dump" then some EvidenceType.memory_dump
  else if s = "config" then some EvidenceType.config
  else if s = "other" then some EvidenceType.other
  else none

/-- Serialised tag of an artefact type. -/
def ArtefactType.value : ArtefactType → String
  | ArtefactType.os_context => "os_context"
  | ArtefactType.memory => "memory"
  | ArtefactType.detection => "detection"
  | ArtefactType.other => "other"

/-- Parse an artefact-type tag. -/
def ArtefactType.parse? (s : String) : Option ArtefactType :=
  if s = "os_context" then some ArtefactType.os_context
  else if s = "memory" then some ArtefactType.memory
  else if s = "detection" then some ArtefactType.detection
  else if s = "other" then some ArtefactType.other
  else none

/-- Serialised tag of an unlock result. -/
def UnlockResult.value : UnlockResult → String
  | UnlockResult.success => "success"
  | UnlockResult.failure => "failure"
  | UnlockResult.error => "error"

/-- Parse an unlock-result tag. -/
def UnlockResult.parse? (s : String) : Option UnlockResult :=
  if s = "success" then some UnlockResult.success
  else if s = "failure" then some UnlockResult.failure
  else if s = "error" then some UnlockResult.error
  else none

/-! ## Serialisation: the dict shapes produced by `to_dict`

One structure per entity, with exactly the keys and serialised value
types the Python `to_dict` methods emit (enums and datetimes as strings,
paths as nullable strings). -/

structure EvidenceD where
  evidence_id : String
  path : String
  description : String
  evidence_type : String
  sha256 : String
  size : Nat

structure ContainerCandidateD where
  candidate_id : String
  evidence_id : String
  offset : Nat
  container_type : String
  confidence : ℝ
  notes : String

structure ArtefactD where
  artefact_id : String
  description : String
  source : String
  artefact_type : String
  path : Option String
  timestamp : Option String

structure TimelineEventD where
  description : String
  timestamp : String
  artefact_id : Option String

structure CustodyEventD where
  timestamp : String
  actor : String
  action : String

structure UnlockAttemptD where
  container_id : String
  method : String
  secret_id : String
  result : String
  message : String

structure CaseMetadataD where
  case_id : String
  examiner : Option String
  created_at : String

structure CaseD where
  root_path : String
  metadata : CaseMetadataD
  evidence : List EvidenceD
  containers : List ContainerCandidateD
  artefacts : List ArtefactD
  timeline : List TimelineEventD
  unlock_attempts : List UnlockAttemptD
  custody_log : List CustodyEventD

/-- `Evidence.to_dict`. -/
def Evidence.to_dict (e : Evidence) : EvidenceD :=
  ⟨e.evidence_id, e.path, e.description, e.evidence_type.value, e.sha256, e.size⟩

/-- `Evidence.from_dict` (`EvidenceType(...)` may raise; `int(size)` is
the identity on the already-integral stored size). -/
def Evidence.from_dict (d : EvidenceD) : Option Evidence :=
  (EvidenceType.parse? d.evidence_type).map fun et =>
    ⟨d.evidence_id, d.path, d.description, et, d.sha256, d.size⟩

/-- `ContainerCandidate.to_dict`. -/
def ContainerCandidate.to_dict (c : ContainerCandidate) : ContainerCandidateD :=
  ⟨c.candidate_id, c.evidence_id, c.offset, c.container_type.value, c.confidence, c.notes⟩

/-- `ContainerCandidate.from_dict` (`float(confidence)` is the identity;
`get` defaults never fire on dicts produced by `to_dict`). -/
def ContainerCandidate.from_dict (d : ContainerCandidateD) : Option ContainerCandidate :=
  (ContainerType.parse? d.container_type).map fun ct =>
    ⟨d.candidate_id, d.evidence_id, d.offset, ct, d.confidence, d.notes⟩

/-- `Artefact.to_dict`: optional path and timestamp serialise to nullable
strings (a present `Path` is truthy, so `str(path) if path else None`
maps over the option). -/
def Artefact.to_dict (a : Artefact) : ArtefactD :=
  ⟨a.artefact_id, a.description, a.source, a.artefact_type.value, a.path,
    a.timestamp.map isoformat⟩

/-- `Artefact.from_dict`: an empty (falsy) path or timestamp string
deserialises to `None`; a malformed nonempty timestamp raises. -/
def Artefact.from_dict (d : ArtefactD) : Option Artefact :=
  (ArtefactType.parse? d.artefact_type).bind fun at_ =>
    (match d.timestamp with
      | none => some none
      | some s => if s = "" then some none else (fromisoformat? s).map some).map
      fun ts =>
        ⟨d.artefact_id, d.description, d.source, at_,
          match d.path with
          | none => none
          | some s => if s = "" then none else some s,
          ts⟩

/-- `TimelineEvent.to_dict`. -/
def TimelineEvent.to_dict (t : TimelineEvent) : TimelineEventD :=
  ⟨t.description, isoformat t.timestamp, t.artefact_id⟩

/-- `TimelineEvent.from_dict`. -/
def TimelineEvent.from_dict (d : TimelineEventD) : Option TimelineEvent :=
  (fromisoformat? d.timestamp).map fun ts => ⟨d.description, ts, d.artefact_id⟩

/-- `CustodyEvent.to_dict`. -/
def CustodyEvent.to_dict (c : CustodyEvent) : CustodyEventD :=
  ⟨isoformat c.timestamp, c.actor, c.action⟩

/-- `CustodyEvent.from_dict`. -/
def CustodyEvent.from_dict (d : CustodyEventD) : Option CustodyEvent :=
  (fromisoformat? d.timestamp).map fun ts => ⟨ts, d.actor, d.action⟩

/-- `UnlockAttempt.to_dict`. -/
def UnlockAttempt.to_dict (u : UnlockAttempt) : UnlockAttemptD :=
  ⟨u.container_id, u.method, u.secret_id, u.result.value, u.message⟩

/-- `UnlockAttempt.from_dict`. -/
def UnlockAttempt.from_dict (d : UnlockAttemptD) : Option UnlockAttempt :=
  (UnlockResult.parse? d.result).map fun r =>
    ⟨d.container_id, d.method, d.secret_id, r, d.message⟩

/-- `CaseMetadata.to_dict`. -/
def CaseMetadata.to_dict (m : CaseMetadata) : CaseMetadataD :=
  ⟨m.case_id, m.examiner, isoformat m.created_at⟩

/-- `CaseMetadata.from_dict` (`examiner` passes through untouched). -/
def CaseMetadata.from_dict (d : CaseMetadataD) : Option CaseMetadata :=
  (fromisoformat? d.created_at).map fun ts => ⟨d.case_id, d.examiner, ts⟩

/-- `Case.to_dict`. -/
def Case.to_dict (c : Case) : CaseD :=
  ⟨c.root_path, c.metadata.to_dict, c.evidence.map Evidence.to_dict,
    c.containers.map ContainerCandidate.to_dict, c.artefacts.map Artefact.to_dict,
    c.timeline.map TimelineEvent.to_dict, c.unlock_attempts.map UnlockAttempt.to_dict,
    c.custody_log.map CustodyEvent.to_dict⟩

/-- `Case.from_dict`: every collection element must deserialise. -/
def Case.from_dict (d : CaseD) : Option Case :=
  (CaseMetadata.from_dict d.metadata).bind fun md =>
  (d.evidence.mapM Evidence.from_dict).bind fun ev =>
  (d.containers.mapM ContainerCandidate.from_dict).bind fun cs =>
  (d.artefacts.mapM Artefact.from_dict).bind fun ars =>
  (d.timeline.mapM TimelineEvent.from_dict).bind fun tl =>
  (d.unlock_attempts.mapM UnlockAttempt.from_dict).bind fun ua =>
  (d.custody_log.mapM CustodyEvent.from_dict).map fun cl =>
    ⟨d.root_path, md, ev, cs, ars, tl, ua, cl⟩

/-! ## core/pipeline.py: the mutating ledger operations the claims need -/

/-- `save_case`: the full snapshot serialised and written to
`root_path/case.json`; modelled as the snapshot value written. -/
def save_case (c : Case) : CaseD := Case.to_dict c

/-- Embedding of `register_container`: append the candidate, synthesize
exactly one detection artefact sourced from the owning evidence identity,
persist.  The fresh `uuid4` artefact identifier is the explicit
`artefactId` argument. -/
def register_container (c : Case) (cand : ContainerCandidate)
    (artefactId : String) : Case × CaseD :=
  let c1 : Case :=
    { c with
      containers := c.containers ++ [cand]
      artefacts := c.artefacts ++
        [⟨artefactId, "Detected container at offset " ++ toString cand.offset,
          cand.evidence_id, ArtefactType.detection, none, none⟩] }
  (c1, save_case c1)

/-- Embedding of `add_timeline_event`: append an event stamped with the
current time (`now` models `datetime.utcnow()`), re-sort the timeline by
timestamp (Python `list.sort` is stable, as is `mergeSort`), persist. -/
def add_timeline_event (c : Case) (description : String)
    (artefactId : Option String) (now : Nat) : Case × CaseD × TimelineEvent :=
  let ev : TimelineEvent := ⟨description, now, artefactId⟩
  let c1 : Case :=
    { c with
      timeline := (c.timeline ++ [ev]).mergeSort
        (fun a b => Nat.ble a.timestamp b.timestamp) }
  (c1, save_case c1, ev)

/-! ## unlock/common.py and crack/interface.py -/

/-- 32-bit truncation. -/
def w32 (n : Nat) : Nat := n % 4294967296

/-- 32-bit right rotation. -/
def rotr (x n : Nat) : Nat := w32 ((x >>> n) ||| (x <<< (32 - n)))

/-- SHA-256 round constants. -/
def shaK : List Nat :=
  [1116352408, 1899447441, 3049323471, 3921009573, 961987163,
   1508970993, 2453635748, 2870763221, 3624381080, 310598401,
   607225278, 1426881987, 1925078388, 2162078206, 2614888103,
   3248222580, 3835390401, 4022224774, 264347078, 604807628,
   770255983, 1249150122, 1555081692, 1996064986, 2554220882,
   2821834349, 2952996808, 3210313671, 3336571891, 3584528711,
   113926993, 338241895, 666307205, 773529912, 1294757372,
   1396182291, 1695183700, 1986661051, 2177026350, 2456956037,
   2730485921, 2820302411, 3259730800, 3345764771, 3516065817,
   3600352804, 4094571909, 275423344, 430227734, 506948616,
   659060556, 883997877, 958139571, 1322822218, 1537002063,
   1747873779, 1955562222, 2024104815, 2227730452, 2361852424,
   2428436474, 2756734187, 3204031479, 3329325298]

/-- SHA-256 initial hash state. -/
def shaH0 : List Nat :=
  [1779033703, 3144134277, 1013904242, 2773480762,
   1359893119, 2600822924, 528734635, 1541459225]

/-- SHA-256 message padding to a multiple of 64 bytes with the bit length
in the trailing 8 bytes. -/
def padMsg (msg : List Nat) : List Nat :=
  let len := msg.length
  let bitLen := len * 8
  let k := (119 - (len % 64)) % 64
  msg ++ [0x80] ++ List.replicate k 0 ++
    [(bitLen / 2 ^ 56) % 256, (bitLen / 2 ^ 48) % 256, (bitLen / 2 ^ 40) % 256,
     (bitLen / 2 ^ 32) % 256, (bitLen / 2 ^ 24) % 256, (bitLen / 2 ^ 16) % 256,
     (bitLen / 2 ^ 8) % 256, bitLen % 256]

/-- Big-endian grouping of bytes into 32-bit words. -/
def bytesToWords : List Nat → List Nat
  | a :: b :: c :: d :: rest => (a * 2 ^ 24 + b * 2 ^ 16 + c * 2 ^ 8 + d) :: bytesToWords rest
  | _ => []

/-- SHA-256 message-schedule extension by `i` additional words. -/
def extendSched (ws : List Nat) : Nat → List Nat
  | 0 => ws
  | n + 1 =>
    let prior := extendSched ws n
    let j := prior.length
    let w15 := prior.getD (j - 15) 0
    let w2 := prior.getD (j - 2) 0
    let s0 := w32 ((rotr w15 7).xor ((rotr w15 18).xor (w15 >>> 3)))
    let s1 := w32 ((rotr w2 17).xor ((rotr w2 19).xor (w2 >>> 10)))
    prior ++ [w32 (prior.getD (j - 16) 0 + s0 + prior.getD (j - 7) 0 + s1)]

/-- One SHA-256 compression round. -/
def shaRound (st : List Nat) (kw : Nat × Nat) : List Nat :=
  match st with
  | [a, b, c, d, e, f, g, h] =>
    let s1 := w32 ((rotr e 6).xor ((rotr e 11).xor (rotr e 25)))
    let ch := w32 ((e.land f).xor ((e.xor 4294967295).land g))
    let t1 := w32 (h + s1 + ch + kw.1 + kw.2)
    let s0 := w32 ((rotr a 2).xor ((rotr a 13).xor (rotr a 22)))
    let mj := w32 (((a.land b).xor (a.land c)).xor (b.land c))
    [w32 (t1 + w32 (s0 + mj)), a, b, c, w32 (d + t1), e, f, g]
  | s => s

/-- SHA-256 compression of one 64-byte block. -/
def processBlock (h : List Nat) (block : List Nat) : List Nat :=
  let ws := extendSched (bytesToWords block) 48
  let st := (shaK.zip ws).foldl shaRound h
  (h.zip st).map fun p => w32 (p.1 + p.2)

/-- Split into 64-byte chunks (fuel-indexed; `l.length` fuel suffices). -/
def chunksAux : Nat → List Nat → List (List Nat)
  | _, [] => []
  | 0, _ => []
  | f + 1, l => l.take 64 :: chunksAux f (l.drop 64)

/-- SHA-256 digest (32 bytes) of a byte string; stands in for
`hashlib.sha256(...).digest()`, which is external library code. -/
def sha256 (msg : List Nat) : List Nat :=
  let padded := padMsg msg
  let hs := (chunksAux padded.length padded).foldl processBlock shaH0
  hs.flatMap fun wd => [wd / 2 ^ 24 % 256, wd / 2 ^ 16 % 256, wd / 2 ^ 8 % 256, wd % 256]

/-- UTF-8 encoding of one character (stands in for `str.encode`). -/
def utf8Char (c : Char) : List Nat :=
  let n := c.toNat
  if n < 128 then [n]
  else if n < 2048 then [192 + n / 64, 128 + n % 64]
  else if n < 65536 then [224 + n / 4096, 128 + (n / 64) % 64, 128 + n % 64]
  else [240 + n / 262144, 128 + (n / 4096) % 64, 128 + (n / 64) % 64, 128 + n % 64]

/-- UTF-8 encoding of a string. -/
def utf8Encode (s : String) : List Nat := s.toList.flatMap utf8Char

/-- Digest-extension loop of `derive_key` (`length` fuel suffices since
each pass appends 32 bytes). -/
def extendDigest (length : Nat) : Nat → List Nat → List Nat
  | 0, d => d
  | f + 1, d => if d.length < length then extendDigest length f (d ++ sha256 d) else d

/-- Embedding of `derive_key`: the placeholder SHA-256-based KDF. -/
def derive_key (secret : String) (length : Nat) : List Nat :=
  (extendDigest length length (sha256 (utf8Encode secret))).take length

/-- Embedding of `verify_magic`. -/
def verify_magic (header expected : List Nat) : Bool := expected.isPrefixOf header

/-- The XOR preview computed inside `attempt_unlock`:
`bytes(a ^ b for a, b in zip(header[:len(derived)], derived[:len(header)]))`. -/
def xorPreview (header derived : List Nat) : List Nat :=
  List.zipWith (fun a b => a.xor b) (header.take derived.length) (derived.take header.length)

/-- State passed into unlock routines (`UnlockContext`). -/
structure UnlockContext where
  candidate : ContainerCandidate
  secret : String
  method : String
  secret_id : String

/-- Embedding of `attempt_unlock`: reads the header through the supplied
reader (whose failure is the exception caught by the `try`/`except`),
XORs it with the derived key and reports success, failure or error as a
typed `UnlockAttempt`. -/
def attempt_unlock (ctx : UnlockContext) (expectedMagic : List Nat)
    (headerReader : ContainerCandidate → Except String (List Nat)) : UnlockAttempt :=
  match headerReader ctx.candidate with
  | Except.error e =>
    ⟨ctx.candidate.candidate_id, ctx.method, ctx.secret_id, UnlockResult.error, e⟩
  | Except.ok header =>
    if verify_magic (xorPreview header (derive_key ctx.secret 32)) expectedMagic then
      ⟨ctx.candidate.candidate_id, ctx.method, ctx.secret_id, UnlockResult.success,
        "Header verification succeeded"⟩
    else
      ⟨ctx.candidate.candidate_id, ctx.method, ctx.secret_id, UnlockResult.failure,
        "Header verification failed"⟩

/-- Configuration for a cracking attempt (`CrackConfig`). -/
structure CrackConfig where
  container : ContainerCandidate
  wordlist_path : Option String
  max_runtime_seconds : Nat

/-- Embedding of `CrackEngine.run`: always raises `NotImplementedError`. -/
def CrackEngine.run (_config : CrackConfig) : Except String Unit :=
  Except.error "Password cracking is not implemented in this prototype."

/-! # Theorems

## Byte-string search: specification of `bytesFind?` -/

theorem subMatchAux_of_first {m : List Nat} :
    ∀ (hay : List Nat) (o i : Nat), m <+: hay.drop o →
      (∀ j, j < o → ¬ m <+: hay.drop j) → subMatchAux m hay i = some (i + o) := by
  intro hay
  induction hay with
  | nil =>
    intro o i h hmin
    match o with
    | 0 =>
      simp only [List.drop_nil] at h
      simp [subMatchAux, List.isPrefixOf_iff_prefix.mpr h]
    | o + 1 =>
      exact absurd (by simpa using h) (by simpa using hmin 0 (Nat.succ_pos o))
  | cons a t ih =>
    intro o i h hmin
    match o with
    | 0 =>
      simp only [List.drop_zero] at h
      simp [subMatchAux, List.isPrefixOf_iff_prefix.mpr h]
    | o + 1 =>
      have hnot : ¬ m <+: (a :: t) := by simpa using hmin 0 (Nat.succ_pos o)
      have hcond : ¬ m.isPrefixOf (a :: t) = true := by
        simpa [List.isPrefixOf_iff_prefix] using hnot
      rw [subMatchAux, if_neg hcond,
        ih o (i + 1) (by simpa using h)
          (fun j hj => by simpa using hmin (j + 1) (by omega))]
      congr 1
      omega

theorem subMatchAux_some_spec {m : List Nat} :
    ∀ (hay : List Nat) (i r : Nat), subMatchAux m hay i = some r →
      i ≤ r ∧ m <+: hay.drop (r - i) ∧ ∀ j, j < r - i → ¬ m <+: hay.drop j := by
  intro hay
  induction hay with
  | nil =>
    intro i r h
    rw [subMatchAux] at h
    by_cases hp : m.isPrefixOf [] = true
    · rw [if_pos hp] at h
      obtain rfl : i = r := by simpa using h
      refine ⟨le_rfl, ?_, ?_⟩
      · simpa using List.isPrefixOf_iff_prefix.mp hp
      · intro j hj; omega
    · rw [if_neg hp] at h; cases h
  | cons a t ih =>
    intro i r h
    rw [subMatchAux] at h
    by_cases hp : m.isPrefixOf (a :: t) = true
    · rw [if_pos hp] at h
      obtain rfl : i = r := by simpa using h
      refine ⟨le_rfl, ?_, ?_⟩
      · simpa using List.isPrefixOf_iff_prefix.mp hp
      · intro j hj; omega
    · rw [if_neg hp] at h
      obtain ⟨hle, hpre, hmin⟩ := ih (i + 1) r h
      refine ⟨by omega, ?_, ?_⟩
      · have : r - i = (r - (i + 1)) + 1 := by omega
        rw [this]
        simpa using hpre
      · intro j hj
        match j with
        | 0 =>
          simpa [List.isPrefixOf_iff_prefix] using hp
        | j + 1 =>
          have := hmin j (by omega)
          simpa using this

theorem bytesFind?_eq_some_iff {m hay : List Nat} {o : Nat} :
    bytesFind? m hay = some o ↔
      m <+: hay.drop o ∧ ∀ j, j < o → ¬ m <+: hay.drop j := by
  constructor
  · intro h
    obtain ⟨-, hpre, hmin⟩ := subMatchAux_some_spec hay 0 o h
    exact ⟨by simpa using hpre, fun j hj => hmin j (by omega)⟩
  · rintro ⟨hpre, hmin⟩
    simpa using subMatchAux_of_first hay o 0 hpre hmin

/-! ## C1: what scanning a file with the BitLocker magic at offset 0 does -/

theorem bytesFind?_prefix {m hay : List Nat} (h : m <+: hay) :
    bytesFind? m hay = some 0 :=
  bytesFind?_eq_some_iff.mpr ⟨by simpa using h, fun j hj => absurd hj (Nat.not_lt_zero j)⟩

/-- Claim C1 (status: code_bug).  The claim says a file carrying
`-FVE-FS-` at offset 0 yields exactly one BitLocker candidate (offset 0,
confidence 0.9, note naming the signature).  On the src snapshot the very
first probe instead raises `TypeError`: `_scan_block` constructs
`core.models.ContainerCandidate` with the keyword `source_path`, which is
not a dataclass field (the dataclass has `evidence_id`), so
`scan_file_for_containers` raises on every file whose bytes contain a
magic sequence, for every path and block size. -/
theorem C1_magic_file_scan_raises_type_error (path : String) (file : List Nat)
    (blockSize : Nat) (h : BITLOCKER_HEADER <+: file) :
    scan_file_checked path file blockSize =
      Except.error
        "TypeError: ContainerCandidate.__init__ got an unexpected keyword argument source_path" := by
  have hblock : bytesFind? BITLOCKER_HEADER ((file.drop 0).take HEADER_WINDOW) = some 0 := by
    apply bytesFind?_prefix
    rw [List.drop_zero, List.prefix_take_iff]
    exact ⟨h, by decide⟩
  have hctor : scannerCtorOk = false := by decide
  rw [scan_file_checked, probePhaseChecked]
  show Except.bind _ _ = _
  rw [show DEFAULT_SCAN_OFFSETS = [0, 4096, 65536] from rfl]
  simp only [List.foldlM, bind, Except.bind]
  rw [scanBlock, hblock]
  simp [consumeScanBlock, hctor]

/-- Witness for C1's theorem at its failing input: the 8-byte file that
is exactly the BitLocker magic. -/
theorem C1_witness :
    BITLOCKER_HEADER <+: BITLOCKER_HEADER ∧
      scan_file_checked "image.bin" BITLOCKER_HEADER 1048576 =
        Except.error
          "TypeError: ContainerCandidate.__init__ got an unexpected keyword argument source_path" :=
  ⟨List.prefix_refl _,
    C1_magic_file_scan_raises_type_error "image.bin" BITLOCKER_HEADER 1048576
      (List.prefix_refl _)⟩

/-! ## C4: unlock and crack capabilities -/

/-- Counterexample to claim C4: `attempt_unlock` does not reject with a
"not implemented" signal — for the secret "a" and a header equal to the
XOR of the derived key with the BitLocker magic, it returns SUCCESS. -/
theorem C4_counterexample_unlock_success :
    (attempt_unlock
      ⟨⟨"cand-1", "ev-1", 0, ContainerType.bitlocker, 0.9, ""⟩, "a", "manual", "secret-1"⟩
      BITLOCKER_HEADER
      (fun _ => Except.ok
        (List.zipWith (fun a b => a.xor b) ((derive_key "a" 32).take 8) BITLOCKER_HEADER))).result
      = UnlockResult.success := by
  decide

/-- Claim C4 as amended: `CrackEngine.run` always rejects
deterministically with the `NotImplementedError` message, and
`attempt_unlock` never silently no-ops — it always returns an explicit
typed `UnlockAttempt`, whose result is SUCCESS exactly when the header
read succeeds and its XOR preview against the derived key starts with the
expected magic (placeholder pseudo-verification, not a "not implemented"
rejection). -/
theorem C4_amended_crack_rejects_unlock_is_pseudo_verification :
    (∀ config : CrackConfig,
      CrackEngine.run config =
        Except.error "Password cracking is not implemented in this prototype.") ∧
    (∀ (ctx : UnlockContext) (expectedMagic : List Nat)
        (headerReader : ContainerCandidate → Except String (List Nat)),
      (attempt_unlock ctx expectedMagic headerReader).result = UnlockResult.success ↔
        ∃ header, headerReader ctx.candidate = Except.ok header ∧
          verify_magic (xorPreview header (derive_key ctx.secret 32)) expectedMagic = true) := by
  refine ⟨fun _ => rfl, fun ctx expectedMagic headerReader => ?_⟩
  rcases hr : headerReader ctx.candidate with e | header
  · simp [attempt_unlock, hr]
  · by_cases hv :
      verify_magic (xorPreview header (derive_key ctx.secret 32)) expectedMagic = true
    · simp [attempt_unlock, hr, hv]
    · simp only [attempt_unlock, hr, if_neg hv]
      constructor
      · intro h; cases h
      · rintro ⟨h2, hh2, hv2⟩
        injection hh2 with he
        subst he
        exact absurd hv2 hv

/-! ## C7: timeline stays sorted -/

/-- Claim C7 (confirmed): after `add_timeline_event` the case's timeline
is sorted ascending by timestamp, whatever the prior state was — hence
the invariant holds after every insertion of any call sequence. -/
theorem C7_timeline_sorted_after_insert (c : Case) (description : String)
    (artefactId : Option String) (now : Nat) :
    ((add_timeline_event c description artefactId now).1.timeline).Pairwise
      (fun x y => x.timestamp ≤ y.timestamp) := by
  have h := @List.sorted_mergeSort TimelineEvent
    (fun x y => Nat.ble x.timestamp y.timestamp)
    (fun x y z hxy hyz => by
      simp only [Nat.ble_eq] at *
      omega)
    (fun x y => by
      simp only [Nat.ble_eq, Bool.or_eq_true]
      omega)
    (c.timeline ++ [⟨description, now, artefactId⟩])
  simp only [add_timeline_event]
  exact h.imp (by intro x y hxy; simpa [Nat.ble_eq] using hxy)

/-! ## C8: registering a container -/

/-- Counterexample to claim C8 as stated: the synthesized detection
artefact's description is capitalised "Detected container at offset 0",
not "detected container at offset 0". -/
theorem C8_counterexample_description_capitalised :
    ((register_container ⟨"root", ⟨"case-1", none, 0⟩, [], [], [], [], [], []⟩
        ⟨"cc-1", "ev-1", 0, ContainerType.bitlocker, 0.9, "n"⟩
        "ar-1").1.artefacts.map Artefact.description)
      = ["Detected container at offset 0"] ∧
    "Detected container at offset 0" ≠ "detected container at offset 0" :=
  ⟨rfl, by decide⟩

/-- Claim C8 as amended (description capitalised as in the source):
`register_container` appends the candidate, synthesizes exactly one
detection artefact "Detected container at offset <offset>" sourced from
the owning evidence identity, persists the full snapshot, and leaves
evidence, timeline, custody log (and unlock attempts) unchanged. -/
theorem C8_amended_register_container_frame (c : Case)
    (cand : ContainerCandidate) (artefactId : String) :
    (register_container c cand artefactId).1.containers = c.containers ++ [cand] ∧
    (register_container c cand artefactId).1.artefacts = c.artefacts ++
      [⟨artefactId, "Detected container at offset " ++ toString cand.offset,
        cand.evidence_id, ArtefactType.detection, none, none⟩] ∧
    (register_container c cand artefactId).1.evidence = c.evidence ∧
    (register_container c cand artefactId).1.timeline = c.timeline ∧
    (register_container c cand artefactId).1.custody_log = c.custody_log ∧
    (register_container c cand artefactId).1.unlock_attempts = c.unlock_attempts ∧
    (register_container c cand artefactId).1.metadata = c.metadata ∧
    (register_container c cand artefactId).1.root_path = c.root_path ∧
    (register_container c cand artefactId).2 =
      Case.to_dict (register_container c cand artefactId).1 :=
  ⟨rfl, rfl, rfl, rfl, rfl, rfl, rfl, rfl, rfl⟩

/-! ## Dedup bookkeeping: `SeenInv` is preserved through a scan -/

theorem scanBlock_not_veracrypt {block : List Nat} {off : Nat} {path : String} :
    ∀ c ∈ scanBlock block off path, c.container_type ≠ ContainerType.veracrypt := by
  intro c hc
  rw [scanBlock] at hc
  rcases List.mem_append.mp hc with h | h
  · cases hfind : bytesFind? BITLOCKER_HEADER block with
    | none => rw [hfind] at h; cases h
    | some i =>
      rw [hfind] at h
      rw [List.mem_singleton.mp h]
      simp
  · cases hfind : bytesFind? LUKS_MAGIC block with
    | none => rw [hfind] at h; cases h
    | some i =>
      rw [hfind] at h
      rw [List.mem_singleton.mp h]
      simp

theorem dedupAdd_keys_mono :
    ∀ (cands : List ScanCandidate) (seen : List (ContainerType × Nat))
      (disc : List ScanCandidate) (k : ContainerType × Nat),
      k ∈ disc.map candKey → k ∈ (dedupAdd seen disc cands).2.map candKey := by
  intro cands
  induction cands with
  | nil => intro seen disc k hk; simpa [dedupAdd] using hk
  | cons c rest ih =>
    intro seen disc k hk
    rw [dedupAdd]
    by_cases hmem : candKey c ∈ seen
    · rw [if_pos hmem]; exact ih seen disc k hk
    · rw [if_neg hmem]
      exact ih _ _ k (by simpa using Or.inl hk)

theorem dedupAdd_P :
    ∀ (cands : List ScanCandidate) (seen : List (ContainerType × Nat))
      (disc : List ScanCandidate),
      (∀ k ∈ seen, k ∈ disc.map candKey) →
      ∀ k ∈ (dedupAdd seen disc cands).1, k ∈ (dedupAdd seen disc cands).2.map candKey := by
  intro cands
  induction cands with
  | nil => intro seen disc h k hk; simpa [dedupAdd] using h k (by simpa [dedupAdd] using hk)
  | cons c rest ih =>
    intro seen disc h k hk
    rw [dedupAdd] at hk ⊢
    by_cases hmem : candKey c ∈ seen
    · rw [if_pos hmem] at hk ⊢; exact ih seen disc h k hk
    · rw [if_neg hmem] at hk ⊢
      refine ih _ _ ?_ k hk
      intro k2 hk2
      rcases List.mem_cons.mp hk2 with rfl | hk2
      · simp
      · simpa using Or.inl (h k2 hk2)

theorem dedupAdd_mem :
    ∀ (cands : List ScanCandidate) (seen : List (ContainerType × Nat))
      (disc : List ScanCandidate),
      (∀ k ∈ seen, k ∈ disc.map candKey) →
      ∀ c ∈ cands, candKey c ∈ (dedupAdd seen disc cands).2.map candKey := by
  intro cands
  induction cands with
  | nil => intro seen disc h c hc; cases hc
  | cons c0 rest ih =>
    intro seen disc h c hc
    rw [dedupAdd]
    by_cases hmem : candKey c0 ∈ seen
    · rw [if_pos hmem]
      rcases List.mem_cons.mp hc with rfl | hc
      · exact dedupAdd_keys_mono rest seen disc _ (h _ hmem)
      · exact ih seen disc h c hc
    · rw [if_neg hmem]
      have hP : ∀ k ∈ candKey c0 :: seen, k ∈ (disc ++ [c0]).map candKey := by
        intro k2 hk2
        rcases List.mem_cons.mp hk2 with rfl | hk2
        · simp
        · simpa using Or.inl (h k2 hk2)
      rcases List.mem_cons.mp hc with rfl | hc
      · exact dedupAdd_keys_mono rest _ _ _ (by simp)
      · exact ih _ _ hP c hc

theorem dedupAdd_inv :
    ∀ (cands : List ScanCandidate) (seen : List (ContainerType × Nat))
      (disc : List ScanCandidate),
      SeenInv seen disc →
      (∀ c ∈ cands, c.container_type ≠ ContainerType.veracrypt) →
      SeenInv (dedupAdd seen disc cands).1 (dedupAdd seen disc cands).2 := by
  intro cands
  induction cands with
  | nil => intro seen disc hinv _; simpa [dedupAdd] using hinv
  | cons c rest ih =>
    intro seen disc hinv hkinds
    obtain ⟨hnd, hks, hP⟩ := hinv
    rw [dedupAdd]
    by_cases hmem : candKey c ∈ seen
    · rw [if_pos hmem]
      exact ih seen disc ⟨hnd, hks, hP⟩ (fun d hd => hkinds d (List.mem_cons_of_mem c hd))
    · rw [if_neg hmem]
      refine ih _ _ ⟨?_, ?_, ?_⟩ (fun d hd => hkinds d (List.mem_cons_of_mem c hd))
      · have hnotin : candKey c ∉ disc.map candKey := by
          intro hin
          obtain ⟨d, hd, hdk⟩ := List.mem_map.mp hin
          rcases hks d hd with hV | hseen
          · have : c.container_type = ContainerType.veracrypt := by
              have := congrArg Prod.fst hdk
              simp only [candKey] at this
              rw [← this, hV]
            exact hkinds c (List.mem_cons_self c rest) this
          · rw [hdk] at hseen
            exact hmem hseen
        have hpair : ∀ d ∈ disc, ¬ candKey d = candKey c := fun d hd heq =>
          hnotin (heq ▸ List.mem_map_of_mem candKey hd)
        simpa [List.nodup_append] using ⟨hnd, hpair⟩
      · intro d hd
        rcases List.mem_append.mp hd with hd | hd
        · rcases hks d hd with hV | hseen
          · exact Or.inl hV
          · exact Or.inr (List.mem_cons_of_mem _ hseen)
        · rw [List.mem_singleton.mp hd]
          exact Or.inr (List.mem_cons_self _ _)
      · intro k hk
        rcases List.mem_cons.mp hk with rfl | hk
        · simp
        · simpa using Or.inl (hP k hk)

theorem probeStep_inv {path : String} {file : List Nat}
    {st : List Nat × List (ContainerType × Nat) × List ScanCandidate} {off : Nat}
    (h : SeenInv st.2.1 st.2.2) :
    SeenInv (probeStep path file st off).2.1 (probeStep path file st off).2.2 :=
  dedupAdd_inv _ _ _ h (fun c hc => scanBlock_not_veracrypt c hc)

theorem probeFold_inv (path : String) (file : List Nat) :
    ∀ (offs : List Nat) (st : List Nat × List (ContainerType × Nat) × List ScanCandidate),
      SeenInv st.2.1 st.2.2 →
      SeenInv (offs.foldl (probeStep path file) st).2.1
        (offs.foldl (probeStep path file) st).2.2 := by
  intro offs
  induction offs with
  | nil => intro st h; simpa using h
  | cons o rest ih =>
    intro st h
    exact ih (probeStep path file st o) (probeStep_inv h)

theorem probePhase_inv (path : String) (file : List Nat) :
    SeenInv (probePhase path file).2.1 (probePhase path file).2.2 :=
  probeFold_inv path file DEFAULT_SCAN_OFFSETS ([], [], [])
    ⟨List.nodup_nil, fun c hc => absurd hc (List.not_mem_nil c),
      fun k hk => absurd hk (List.not_mem_nil k)⟩

theorem fallbackPhase_keys_mono (path : String) (hb : List Nat)
    (disc : List ScanCandidate) :
    ∀ k ∈ disc.map candKey, k ∈ (fallbackPhase path hb disc).map candKey := by
  intro k hk
  rw [fallbackPhase]
  split
  · exact hk
  · split
    · exact hk
    · simpa using Or.inl hk

theorem fallbackPhase_inv {path : String} {hb : List Nat} {seen : List (ContainerType × Nat)}
    {disc : List ScanCandidate} (h : SeenInv seen disc) :
    SeenInv seen (fallbackPhase path hb disc) := by
  obtain ⟨hnd, hks, hP⟩ := h
  rw [fallbackPhase]
  split
  · exact ⟨hnd, hks, hP⟩
  · rename_i hany
    split
    · exact ⟨hnd, hks, hP⟩
    · rename_i conf hconf
      refine ⟨?_, ?_, ?_⟩
      · have hpair : ∀ x ∈ disc,
            x.container_type = ContainerType.veracrypt → ¬ x.offset = 0 := by
          intro d hd hdV _
          exact hany (List.any_eq_true.mpr ⟨d, hd, by simp [hdV]⟩)
        simpa [List.nodup_append, candKey] using ⟨hnd, hpair⟩
      · intro d hd
        rcases List.mem_append.mp hd with hd | hd
        · exact hks d hd
        · rw [List.mem_singleton.mp hd]
          exact Or.inl rfl
      · intro k hk
        simpa using Or.inl (hP k hk)

theorem sweepLoop_inv (path : String) (file : List Nat) (bs : Nat) :
    ∀ (fuel pos : Nat) (tail : List Nat) (seen : List (ContainerType × Nat))
      (disc : List ScanCandidate),
      SeenInv seen disc →
      SeenInv (sweepLoop path file bs fuel pos tail seen disc).1
        (sweepLoop path file bs fuel pos tail seen disc).2 := by
  intro fuel
  induction fuel with
  | zero => intro pos tail seen disc h; simpa [sweepLoop] using h
  | succ f ih =>
    intro pos tail seen disc h
    rw [sweepLoop]
    by_cases hblock : (file.drop pos).take bs = []
    · rw [if_pos hblock]; exact h
    · rw [if_neg hblock]
      exact ih _ _ _ _ (dedupAdd_inv _ _ _ h (fun c hc => scanBlock_not_veracrypt c hc))

theorem sweepLoop_keys_mono (path : String) (file : List Nat) (bs : Nat) :
    ∀ (fuel pos : Nat) (tail : List Nat) (seen : List (ContainerType × Nat))
      (disc : List ScanCandidate) (k : ContainerType × Nat),
      k ∈ disc.map candKey →
      k ∈ (sweepLoop path file bs fuel pos tail seen disc).2.map candKey := by
  intro fuel
  induction fuel with
  | zero => intro pos tail seen disc k hk; simpa [sweepLoop] using hk
  | succ f ih =>
    intro pos tail seen disc k hk
    rw [sweepLoop]
    by_cases hblock : (file.drop pos).take bs = []
    · rw [if_pos hblock]; exact hk
    · rw [if_neg hblock]
      exact ih _ _ _ _ k (dedupAdd_keys_mono _ _ _ k hk)

theorem scan_keys_nodup (path : String) (file : List Nat) (bs : Nat) :
    ((scan_file_for_containers path file bs).map candKey).Nodup :=
  (sweepLoop_inv path file bs (file.length + 1) 0 []
    (probePhase path file).2.1
    (fallbackPhase path (probePhase path file).1 (probePhase path file).2.2)
    (fallbackPhase_inv (probePhase_inv path file))).1

/-! ## C3: the dedup invariant of a file scan -/

/-- Claim C3 (confirmed): for every path, file content and block size, no
two candidates returned by `scan_file_for_containers` share the same
(container kind, offset) pair; the `seen` set is threaded through both
the targeted-probe phase and the streaming-sweep phase. -/
theorem C3_no_two_candidates_share_kind_offset (path : String) (file : List Nat)
    (blockSize : Nat) :
    ((scan_file_for_containers path file blockSize).map candKey).Nodup :=
  scan_keys_nodup path file blockSize

/-! ## C2: the streaming sweep and chunk boundaries -/

theorem scanBlock_finds {m : List Nat} {kind : ContainerType} (path : String)
    (hmk : (m = BITLOCKER_HEADER ∧ kind = ContainerType.bitlocker) ∨
      (m = LUKS_MAGIC ∧ kind = ContainerType.luks)) :
    ∀ (block : List Nat) (base i : Nat), bytesFind? m block = some i →
      ∃ c, c ∈ scanBlock block base path ∧ candKey c = (kind, base + i) := by
  rcases hmk with ⟨rfl, rfl⟩ | ⟨rfl, rfl⟩ <;> intro block base i hf <;> rw [scanBlock, hf]
  · exact ⟨_, List.mem_append_left _ (List.mem_singleton_self _), rfl⟩
  · exact ⟨_, List.mem_append_right _ (List.mem_singleton_self _), rfl⟩

theorem sweepLoop_first_occurrence
    (path : String) (file : List Nat) (bs : Nat) (m : List Nat) (kind : ContainerType)
    (o : Nat)
    (hbs : sweepOverlap ≤ bs)
    (hsb : ∀ (block : List Nat) (base i : Nat), bytesFind? m block = some i →
      ∃ c, c ∈ scanBlock block base path ∧ candKey c = (kind, base + i))
    (hmlen : m.length ≤ sweepOverlap + 1) (hmne : m ≠ [])
    (hfound : m <+: file.drop o)
    (hmin : ∀ j, j < o → ¬ m <+: file.drop j) :
    ∀ (fuel pos : Nat) (tail : List Nat) (seen : List (ContainerType × Nat))
      (disc : List ScanCandidate),
      file.length + 1 - pos ≤ fuel →
      pos ≤ file.length →
      tail.length ≤ pos →
      tail = (file.drop (pos - tail.length)).take tail.length →
      (pos ≤ o ∨ (pos - tail.length ≤ o ∧ o + m.length ≤ pos + bs ∧ pos < file.length)) →
      (∀ k ∈ seen, k ∈ disc.map candKey) →
      (kind, o) ∈ (sweepLoop path file bs fuel pos tail seen disc).2.map candKey := by
  have hov : sweepOverlap = 7 := by decide
  rw [hov] at hbs hmlen
  have hm1 : 1 ≤ m.length := List.length_pos.mpr hmne
  have holen : o + m.length ≤ file.length := by
    rcases le_or_lt o file.length with ho | ho
    · have h1 := hfound.length_le
      rw [List.length_drop] at h1
      omega
    · have hnil : file.drop o = [] := List.drop_eq_nil_of_le (by omega)
      rw [hnil] at hfound
      exact absurd (List.prefix_nil.mp hfound) hmne
  intro fuel
  induction fuel with
  | zero =>
    intro pos tail seen disc hfuel hple _ _ _ _
    omega
  | succ f ih =>
    intro pos tail seen disc hfuel hple htl htail hpos hseen
    have hposlt : pos < file.length := by
      rcases hpos with h | ⟨_, _, h⟩
      · omega
      · exact h
    have hblockne : (file.drop pos).take bs ≠ [] := by
      rw [ne_eq, List.take_eq_nil_iff]
      push_neg
      constructor
      · omega
      · rw [ne_eq, List.drop_eq_nil_iff]
        omega
    simp only [sweepLoop]
    rw [if_neg hblockne]
    by_cases hcap : pos - tail.length ≤ o ∧ o + m.length ≤ pos + bs
    · -- the occurrence is inside this iteration's combined buffer
      have hcomb : tail ++ (file.drop pos).take bs =
          (file.drop (pos - tail.length)).take (tail.length + bs) := by
        rw [List.take_add, ← htail, List.drop_drop]
        rw [Nat.sub_add_cancel htl]
      have hfind : bytesFind? m (tail ++ (file.drop pos).take bs) =
          some (o - (pos - tail.length)) := by
        rw [hcomb]
        apply bytesFind?_eq_some_iff.mpr
        constructor
        · rw [List.drop_take, List.drop_drop]
          have heq : pos - tail.length + (o - (pos - tail.length)) = o := by omega
          rw [heq]
          exact List.prefix_take_iff.mpr ⟨hfound, by omega⟩
        · intro j hj hpre
          rw [List.drop_take, List.drop_drop] at hpre
          have := (List.prefix_take_iff.mp hpre).1
          exact hmin (pos - tail.length + j) (by omega) this
      obtain ⟨c, hc, hckey⟩ := hsb _ (pos - tail.length) (o - (pos - tail.length)) hfind
      have hco : candKey c = (kind, o) := by
        rw [hckey]
        congr 1
        omega
      have hmem := dedupAdd_mem _ seen disc hseen c hc
      rw [hco] at hmem
      exact sweepLoop_keys_mono path file bs f _ _ _ _ _ hmem
    · -- not yet: step over a full chunk and recurse
      have hposle : pos ≤ o := by
        rcases hpos with h | ⟨h1, h2, _⟩
        · exact h
        · exact absurd ⟨h1, h2⟩ hcap
      have hogt : pos + bs < o + m.length := by
        rcases le_or_lt (o + m.length) (pos + bs) with h | h
        · exact absurd ⟨by omega, h⟩ hcap
        · exact h
      have hblen : ((file.drop pos).take bs).length = bs := by
        rw [List.length_take, List.length_drop]
        omega
      rw [hov, if_pos (by omega : 0 < 7), hblen]
      have htail1 : ((file.drop pos).take bs).drop (bs - 7) =
          (file.drop (pos + bs - 7)).take 7 := by
        rw [List.drop_take, List.drop_drop]
        have h1 : bs - (bs - 7) = 7 := by omega
        have h2 : pos + (bs - 7) = pos + bs - 7 := by omega
        rw [h1, h2]
      rw [htail1]
      have htail1len : ((file.drop (pos + bs - 7)).take 7).length = 7 := by
        rw [List.length_take, List.length_drop]
        omega
      apply ih (pos + bs) _ _ _
      · omega
      · omega
      · rw [htail1len]; omega
      · rw [htail1len]
      · rcases le_or_lt (pos + bs) o with h | h
        · exact Or.inl h
        · refine Or.inr ⟨?_, ?_, ?_⟩
          · rw [htail1len]; omega
          · omega
          · omega
      · exact dedupAdd_P _ seen disc hseen

/-- Counterexample to claim C2 as stated: in the 13-byte file
`00 ++ LUKS ++ LUKS` scanned with chunk size 8, the second LUKS
occurrence starts at offset 7 and straddles the chunk boundary at byte 8,
yet the scan reports only (luks, 1): `block.index` finds only the first
occurrence per combined buffer, and that occurrence is already
deduplicated, so the straddling occurrence is never detected. -/
theorem C2_counterexample_straddling_occurrence_missed :
    LUKS_MAGIC <+: (([0] ++ LUKS_MAGIC ++ LUKS_MAGIC : List Nat).drop 7) ∧
    7 < 8 ∧ 8 < 7 + LUKS_MAGIC.length ∧
    (scan_file_for_containers "disk.img" ([0] ++ LUKS_MAGIC ++ LUKS_MAGIC) 8).map candKey =
      [(ContainerType.luks, 1)] :=
  ⟨by decide, by decide, by decide, by decide⟩

theorem length_filter_eq_one_of_nodup {α : Type} [DecidableEq α] {a : α} :
    ∀ {l : List α}, l.Nodup → a ∈ l →
      (l.filter fun x => decide (x = a)).length = 1 := by
  intro l
  induction l with
  | nil => intro _ h; cases h
  | cons b t ih =>
    intro hnd hmem
    rw [List.filter_cons]
    by_cases hb : b = a
    · subst hb
      have hnotin : b ∉ t := (List.nodup_cons.mp hnd).1
      have hfil : t.filter (fun x => decide (x = b)) = [] := by
        rw [List.filter_eq_nil_iff]
        intro x hx hdec
        rw [decide_eq_true_eq] at hdec
        exact hnotin (hdec ▸ hx)
      simp [hfil]
    · have hmem2 : a ∈ t := by
        rcases List.mem_cons.mp hmem with h | h
        · exact absurd h.symm hb
        · exact h
      simp only [decide_eq_true_eq, hb, if_false]
      exact ih (List.nodup_cons.mp hnd).2 hmem2

/-- Claim C2 as amended: with chunk size at least
`max_signature_length − 1`, the tail-retention/offset-correction sweep
detects the FIRST occurrence of each magic sequence exactly once at its
true byte offset, even when it straddles a chunk boundary; a later
occurrence can be missed when an earlier occurrence of the same magic
lies in the same combined buffer, because matching reports only the
first index per buffer. -/
theorem C2_amended_first_occurrence_detected_once
    (path : String) (file : List Nat) (bs : Nat) (m : List Nat)
    (kind : ContainerType) (o : Nat)
    (hmk : (m = BITLOCKER_HEADER ∧ kind = ContainerType.bitlocker) ∨
      (m = LUKS_MAGIC ∧ kind = ContainerType.luks))
    (hbs : sweepOverlap ≤ bs)
    (hfirst : bytesFind? m file = some o) :
    (((scan_file_for_containers path file bs).map candKey).filter
      fun k => decide (k = (kind, o))).length = 1 := by
  obtain ⟨hfound, hmin⟩ := bytesFind?_eq_some_iff.mp hfirst
  have hmne : m ≠ [] := by rcases hmk with ⟨rfl, -⟩ | ⟨rfl, -⟩ <;> decide
  have hmlen : m.length ≤ sweepOverlap + 1 := by
    rcases hmk with ⟨rfl, -⟩ | ⟨rfl, -⟩ <;> decide
  have hseen0 : ∀ k ∈ (probePhase path file).2.1,
      k ∈ (fallbackPhase path (probePhase path file).1
        (probePhase path file).2.2).map candKey := by
    intro k hk
    exact fallbackPhase_keys_mono path _ _ k ((probePhase_inv path file).2.2 k hk)
  have hmem : (kind, o) ∈ ((scan_file_for_containers path file bs).map candKey) := by
    show (kind, o) ∈ ((sweepLoop path file bs (file.length + 1) 0 []
      (probePhase path file).2.1
      (fallbackPhase path (probePhase path file).1 (probePhase path file).2.2)).2.map candKey)
    exact sweepLoop_first_occurrence path file bs m kind o hbs
      (scanBlock_finds path hmk) hmlen hmne hfound hmin
      (file.length + 1) 0 [] _ _ (by omega) (by omega) (by simp) (by simp)
      (Or.inl (Nat.zero_le o)) hseen0
  exact length_filter_eq_one_of_nodup (scan_keys_nodup path file bs) hmem

/-- Witness for C2's amended theorem: a LUKS magic whose first occurrence
starts at byte 7 of a 13-byte file scanned with chunk size 8 straddles
the boundary at byte 8 and is reported exactly once, at offset 7. -/
theorem C2_amended_witness :
    sweepOverlap ≤ 8 ∧
    bytesFind? LUKS_MAGIC (List.replicate 7 0 ++ LUKS_MAGIC) = some 7 ∧
    (((scan_file_for_containers "disk.img" (List.replicate 7 0 ++ LUKS_MAGIC) 8).map candKey).filter
      fun k => decide (k = (ContainerType.luks, 7))).length = 1 :=
  ⟨by decide, by decide,
    C2_amended_first_occurrence_detected_once "disk.img"
      (List.replicate 7 0 ++ LUKS_MAGIC) 8 LUKS_MAGIC ContainerType.luks 7
      (Or.inr ⟨rfl, rfl⟩) (by decide) (by decide)⟩

/-! ## C5: per-file errors never abort the path scan -/

theorem scan_path_fold (blockSize : Nat) :
    ∀ (listing : List (String × Except String (List Nat)))
      (acc : List ScanCandidate × List ScanEvent),
      listing.foldl (pathStep blockSize) acc =
        (acc.1 ++ listing.flatMap (entryResults blockSize),
          acc.2 ++ listing.flatMap (entryEvents blockSize)) := by
  intro listing
  induction listing with
  | nil => intro acc; simp
  | cons entry rest ih =>
    intro acc
    rw [List.foldl_cons, ih]
    obtain ⟨p, c⟩ := entry
    cases c with
    | error e =>
      simp [pathStep, entryResults, entryEvents]
    | ok bytes =>
      simp [pathStep, entryResults, entryEvents]

theorem entryEvents_no_error_for {p : String} {blockSize : Nat}
    {entry : String × Except String (List Nat)} (h : entry.1 ≠ p) :
    (entryEvents blockSize entry).filter (isErrorEventFor p) = [] := by
  obtain ⟨q, c⟩ := entry
  have hq : q ≠ p := h
  cases c with
  | error e =>
    simp only [entryEvents]
    rw [List.filter_eq_nil_iff]
    intro ev hev
    rcases List.mem_cons.mp hev with rfl | hev
    · simp [isErrorEventFor]
    · obtain rfl := List.mem_singleton.mp hev
      simpa [isErrorEventFor] using hq
  | ok bytes =>
    simp only [entryEvents]
    rw [List.filter_eq_nil_iff]
    intro ev hev
    rcases List.mem_cons.mp hev with rfl | hev
    · simp [isErrorEventFor]
    · obtain ⟨c2, -, rfl⟩ := List.mem_map.mp hev
      simp [isErrorEventFor]

theorem flatMap_no_error_for {p : String} {blockSize : Nat} :
    ∀ (listing : List (String × Except String (List Nat))),
      p ∉ listing.map Prod.fst →
      (listing.flatMap (entryEvents blockSize)).filter (isErrorEventFor p) = [] := by
  intro listing
  induction listing with
  | nil => intro _; simp
  | cons entry rest ih =>
    intro hp
    rw [List.flatMap_cons, List.filter_append]
    rw [entryEvents_no_error_for (fun he => hp (by simp [← he])),
      ih (fun hmem => hp (by simp [hmem]))]
    rfl

theorem errors_counted_once {p : String} {e : String} {blockSize : Nat} :
    ∀ (listing : List (String × Except String (List Nat))),
      (listing.map Prod.fst).Nodup →
      (p, Except.error e) ∈ listing →
      ((listing.flatMap (entryEvents blockSize)).filter (isErrorEventFor p)).length = 1 := by
  intro listing
  induction listing with
  | nil => intro _ h; cases h
  | cons entry rest ih =>
    intro hnd hmem
    rw [List.map_cons] at hnd
    have hnc := List.nodup_cons.mp hnd
    rw [List.flatMap_cons, List.filter_append, List.length_append]
    rcases List.mem_cons.mp hmem with heq | hmem2
    · obtain rfl := heq.symm
      have hrest : p ∉ rest.map Prod.fst := hnc.1
      rw [flatMap_no_error_for rest hrest]
      simp [entryEvents, isErrorEventFor]
    · have hpfst : p ∈ rest.map Prod.fst :=
        List.mem_map.mpr ⟨(p, Except.error e), hmem2, rfl⟩
      have hne : entry.1 ≠ p := by
        intro he
        exact hnc.1 (he ▸ hpfst)
      rw [entryEvents_no_error_for hne]
      simpa using ih hnc.2 hmem2

/-- Claim C5 (confirmed): a per-file read failure never aborts the scan:
the result set is exactly the concatenation of the candidates of the
readable files (in walk order), and — when the walked paths are distinct
— each unreadable path receives exactly one entry on the error channel.
The walked sequence, with each path's readability, is the `listing`
argument; scanning continues past errors by construction of the fold. -/
theorem C5_per_file_error_skipped_scan_continues
    (listing : List (String × Except String (List Nat))) (blockSize : Nat) :
    ((scan_path_for_containers listing blockSize).1 =
      listing.flatMap (entryResults blockSize)) ∧
    ((scan_path_for_containers listing blockSize).2 =
      listing.flatMap (entryEvents blockSize)) ∧
    (∀ p e, (listing.map Prod.fst).Nodup → (p, Except.error e) ∈ listing →
      (((scan_path_for_containers listing blockSize).2.filter
        (isErrorEventFor p)).length = 1)) := by
  have hfold := scan_path_fold blockSize listing ([], [])
  refine ⟨?_, ?_, ?_⟩
  · rw [scan_path_for_containers, hfold]
    simp
  · rw [scan_path_for_containers, hfold]
    simp
  · intro p e hnd hmem
    rw [scan_path_for_containers, hfold]
    simpa using errors_counted_once listing hnd hmem

/-- Witness for C5: three walked files, the second unreadable — the
error channel receives exactly one entry for that path. -/
theorem C5_witness :
    ((([("f1", Except.ok BITLOCKER_HEADER), ("f2", Except.error "Permission denied"),
        ("f3", Except.ok [1, 2, 3])] :
        List (String × Except String (List Nat))).map Prod.fst).Nodup) ∧
    ("f2", (Except.error "Permission denied" : Except String (List Nat))) ∈
      ([("f1", Except.ok BITLOCKER_HEADER), ("f2", Except.error "Permission denied"),
        ("f3", Except.ok [1, 2, 3])] :
        List (String × Except String (List Nat))) ∧
    (((scan_path_for_containers
        [("f1", Except.ok BITLOCKER_HEADER), ("f2", Except.error "Permission denied"),
          ("f3", Except.ok [1, 2, 3])] 1048576).2.filter
        (isErrorEventFor "f2")).length = 1) :=
  ⟨by decide, List.mem_cons_of_mem _ (List.mem_cons_self _ _),
    (C5_per_file_error_skipped_scan_continues
      [("f1", Except.ok BITLOCKER_HEADER), ("f2", Except.error "Permission denied"),
        ("f3", Except.ok [1, 2, 3])] 1048576).2.2 "f2" "Permission denied"
      (by decide) (List.mem_cons_of_mem _ (List.mem_cons_self _ _))⟩

/-! ## C6: the directory walker -/

theorem childIdents_sublist : (es : FsEntries) →
    (childIdents es).Sublist (dirIdentsEntries es)
  | FsEntries.nil => List.Sublist.refl _
  | FsEntries.cons (FsEntry.file _) rest => childIdents_sublist rest
  | FsEntries.cons (FsEntry.dir _ _) rest =>
    List.Sublist.cons₂ _
      ((childIdents_sublist rest).trans (List.sublist_append_right _ _))
  | FsEntries.cons (FsEntry.symlinkDir _ _) rest => childIdents_sublist rest
  | FsEntries.cons (FsEntry.reparseDir _ _) rest => childIdents_sublist rest

theorem dirIdents_perm : (es : FsEntries) →
    (dirIdentsEntries es).Perm (childIdents es ++ deepIdents es)
  | FsEntries.nil => List.Perm.refl _
  | FsEntries.cons (FsEntry.file n) rest => dirIdents_perm rest
  | FsEntries.cons (FsEntry.dir n d) rest => by
    show (d.ident :: (dirIdentsDir d ++ dirIdentsEntries rest)).Perm
      ((d.ident :: childIdents rest) ++ (dirIdentsDir d ++ deepIdents rest))
    refine List.Perm.cons _ ?_
    have h1 : (dirIdentsDir d ++ dirIdentsEntries rest).Perm
        (dirIdentsDir d ++ (childIdents rest ++ deepIdents rest)) :=
      (dirIdents_perm rest).append_left _
    have h2 : (dirIdentsDir d ++ (childIdents rest ++ deepIdents rest)).Perm
        (childIdents rest ++ (dirIdentsDir d ++ deepIdents rest)) := by
      rw [← List.append_assoc, ← List.append_assoc]
      exact (List.perm_append_comm).append_right _
    exact h1.trans h2
  | FsEntries.cons (FsEntry.symlinkDir n d) rest => dirIdents_perm rest
  | FsEntries.cons (FsEntry.reparseDir n d) rest => dirIdents_perm rest

theorem pruneEntries_spec : (es : FsEntries) → ∀ (visited : List (Nat × Nat)),
    (∀ i ∈ childIdents es, i ∉ visited) → (childIdents es).Nodup →
    pruneEntries es visited = (dirFlags es, (childIdents es).reverse ++ visited)
  | FsEntries.nil => by
    intro visited _ _
    rfl
  | FsEntries.cons (FsEntry.file n) rest => by
    intro visited hfresh hnd
    show (false :: (pruneEntries rest visited).1, (pruneEntries rest visited).2) = _
    rw [pruneEntries_spec rest visited hfresh hnd]
    rfl
  | FsEntries.cons (FsEntry.dir n d) rest => by
    intro visited hfresh hnd
    have hfresh' : ∀ i ∈ d.ident :: childIdents rest, i ∉ visited := hfresh
    have hnd' : (d.ident :: childIdents rest).Nodup := hnd
    have hcons := List.nodup_cons.mp hnd'
    have hno : d.ident ∉ visited := hfresh' d.ident (List.mem_cons_self _ _)
    show (if d.ident ∈ visited then
        (false :: (pruneEntries rest visited).1, (pruneEntries rest visited).2)
      else
        (true :: (pruneEntries rest (d.ident :: visited)).1,
          (pruneEntries rest (d.ident :: visited)).2)) = _
    rw [if_neg hno,
      pruneEntries_spec rest (d.ident :: visited)
        (fun i hi => by
          simp only [List.mem_cons]
          push_neg
          exact ⟨fun he => hcons.1 (he ▸ hi),
            hfresh' i (List.mem_cons_of_mem _ hi)⟩)
        hcons.2]
    simp [dirFlags, childIdents, List.reverse_cons, List.append_assoc]
  | FsEntries.cons (FsEntry.symlinkDir n d) rest => by
    intro visited hfresh hnd
    show (false :: (pruneEntries rest visited).1, (pruneEntries rest visited).2) = _
    rw [pruneEntries_spec rest visited hfresh hnd]
    rfl
  | FsEntries.cons (FsEntry.reparseDir n d) rest => by
    intro visited hfresh hnd
    show (false :: (pruneEntries rest visited).1, (pruneEntries rest visited).2) = _
    rw [pruneEntries_spec rest visited hfresh hnd]
    rfl

mutual
theorem walkDir_spec : ∀ (d : FsDir) (dirPath : String) (visited : List (Nat × Nat)),
    (dirIdentsDir d).Nodup →
    (∀ i ∈ dirIdentsDir d, i ∉ visited) →
    ∃ v2, walkDir dirPath d visited = (realFilesDir dirPath d, v2) ∧
      ∀ x, x ∈ v2 ↔ (x ∈ visited ∨ x ∈ dirIdentsDir d)
  | FsDir.mk ident es => by
    intro dirPath visited hnd hfresh
    have hnd' : (dirIdentsEntries es).Nodup := hnd
    have hfresh' : ∀ i ∈ dirIdentsEntries es, i ∉ visited := hfresh
    have hchildsub := childIdents_sublist es
    have hperm := dirIdents_perm es
    have hndcd : (childIdents es ++ deepIdents es).Nodup := hperm.nodup_iff.mp hnd'
    have hprune := pruneEntries_spec es visited
      (fun i hi => hfresh' i (hchildsub.subset hi)) (hnd'.sublist hchildsub)
    obtain ⟨v2, hw, hv2⟩ :=
      walkEntrs_spec es dirPath ((childIdents es).reverse ++ visited) hnd'
        (fun i hi hmem => by
          rcases List.mem_append.mp hmem with h2 | h2
          · exact (List.disjoint_of_nodup_append hndcd) (List.mem_reverse.mp h2) hi
          · exact hfresh' i (hperm.mem_iff.mpr (List.mem_append_right _ hi)) h2)
    refine ⟨v2, ?_, ?_⟩
    · show (entryFiles dirPath es ++
          (walkEntrs dirPath es (pruneEntries es visited).1
            (pruneEntries es visited).2).1,
          (walkEntrs dirPath es (pruneEntries es visited).1
            (pruneEntries es visited).2).2) =
        (entryFiles dirPath es ++ realFilesEntries dirPath es, v2)
      rw [hprune]
      dsimp only
      rw [hw]
    · intro x
      rw [hv2 x]
      show (x ∈ (childIdents es).reverse ++ visited ∨ x ∈ deepIdents es) ↔
        (x ∈ visited ∨ x ∈ dirIdentsEntries es)
      simp only [List.mem_append, List.mem_reverse]
      constructor
      · rintro (⟨h | h⟩ | h)
        · exact Or.inr (hperm.mem_iff.mpr (List.mem_append_left _ h))
        · exact Or.inl h
        · exact Or.inr (hperm.mem_iff.mpr (List.mem_append_right _ h))
      · rintro (h | h)
        · exact Or.inl (Or.inr h)
        · rcases List.mem_append.mp (hperm.mem_iff.mp h) with h2 | h2
          · exact Or.inl (Or.inl h2)
          · exact Or.inr h2

theorem walkEntrs_spec : ∀ (es : FsEntries) (dirPath : String)
    (visited : List (Nat × Nat)),
    (dirIdentsEntries es).Nodup →
    (∀ i ∈ deepIdents es, i ∉ visited) →
    ∃ v2, walkEntrs dirPath es (dirFlags es) visited =
        (realFilesEntries dirPath es, v2) ∧
      ∀ x, x ∈ v2 ↔ (x ∈ visited ∨ x ∈ deepIdents es)
  | FsEntries.nil => by
    intro dirPath visited _ _
    exact ⟨visited, rfl, fun x => by
      show x ∈ visited ↔ x ∈ visited ∨ x ∈ ([] : List (Nat × Nat))
      simp⟩
  | FsEntries.cons (FsEntry.file n) rest => by
    intro dirPath visited hnd hfresh
    obtain ⟨v2, hw, hv2⟩ := walkEntrs_spec rest dirPath visited hnd hfresh
    exact ⟨v2, hw, hv2⟩
  | FsEntries.cons (FsEntry.dir n d) rest => by
    intro dirPath visited hnd hfresh
    have hnd' : (d.ident :: (dirIdentsDir d ++ dirIdentsEntries rest)).Nodup := hnd
    have hfresh' : ∀ i ∈ dirIdentsDir d ++ deepIdents rest, i ∉ visited := hfresh
    have hcons := List.nodup_cons.mp hnd'
    have happ := List.nodup_append.mp hcons.2
    obtain ⟨vs, hws, hvs⟩ := walkDir_spec d (dirPath ++ "/" ++ n) visited
      happ.1 (fun i hi => hfresh' i (List.mem_append_left _ hi))
    obtain ⟨v2, hw, hv2⟩ := walkEntrs_spec rest dirPath vs happ.2.1
      (fun i hi => by
        rw [hvs i]
        push_neg
        exact ⟨hfresh' i (List.mem_append_right _ hi),
          fun hid => happ.2.2 hid
            ((dirIdents_perm rest).mem_iff.mpr (List.mem_append_right _ hi))⟩)
    refine ⟨v2, ?_, ?_⟩
    · show ((walkDir (dirPath ++ "/" ++ n) d visited).1 ++
          (walkEntrs dirPath rest (dirFlags rest)
            (walkDir (dirPath ++ "/" ++ n) d visited).2).1,
          (walkEntrs dirPath rest (dirFlags rest)
            (walkDir (dirPath ++ "/" ++ n) d visited).2).2) =
        (realFilesDir (dirPath ++ "/" ++ n) d ++ realFilesEntries dirPath rest, v2)
      rw [hws]
      dsimp only
      rw [hw]
    · intro x
      rw [hv2 x, hvs x]
      show (x ∈ visited ∨ x ∈ dirIdentsDir d) ∨ x ∈ deepIdents rest ↔
        x ∈ visited ∨ x ∈ dirIdentsDir d ++ deepIdents rest
      simp [List.mem_append, or_assoc]
  | FsEntries.cons (FsEntry.symlinkDir n d) rest => by
    intro dirPath visited hnd hfresh
    obtain ⟨v2, hw, hv2⟩ := walkEntrs_spec rest dirPath visited hnd hfresh
    exact ⟨v2, hw, hv2⟩
  | FsEntries.cons (FsEntry.reparseDir n d) rest => by
    intro dirPath visited hnd hfresh
    obtain ⟨v2, hw, hv2⟩ := walkEntrs_spec rest dirPath visited hnd hfresh
    exact ⟨v2, hw, hv2⟩
end

/-- Claim C6 (confirmed): `_iter_files` — a total, structurally recursive
function, so traversal terminates on every finite directory tree however
the symlink and reparse entries point (including back to an ancestor) —
yields a single file root as itself, and for a directory root with
distinct (device, inode) identities it yields exactly the real files, in
depth-first order, each exactly once: symlinks, reparse points and
already-visited identities are never descended. -/
theorem C6_walker_yields_every_real_file_exactly_once :
    (∀ p : String, iter_files (FsRoot.file p) = [p]) ∧
    (∀ (p : String) (d : FsDir), (dirIdentsDir d).Nodup →
      iter_files (FsRoot.dir p d) = realFilesDir p d) := by
  refine ⟨fun p => rfl, fun p d hnd => ?_⟩
  obtain ⟨v2, heq, -⟩ := walkDir_spec d p [] hnd (fun i _ h => (List.not_mem_nil i) h)
  rw [iter_files, heq]

/-- Witness for C6 on the demonstration tree, whose subdirectory holds a
symlink pointing back at the root: both real files are yielded exactly
once and the symlink is not followed. -/
theorem C6_witness :
    (dirIdentsDir demoRoot).Nodup ∧
      iter_files (FsRoot.dir "root" demoRoot) = ["root/a", "root/sub/b"] := by
  refine ⟨by decide, ?_⟩
  rw [C6_walker_yields_every_real_file_exactly_once.2 "root" demoRoot (by decide)]
  decide

/-! ## C9: Shannon entropy -/

theorem sum_neg_logb_le {s : Finset Nat} {p : Nat → ℝ}
    (hpos : ∀ b ∈ s, 0 < p b) (hsum : ∑ b in s, p b = 1) :
    ∑ b in s, -(p b * Real.logb 2 (p b)) ≤ Real.logb 2 s.card := by
  have hsne : s.Nonempty := by
    rcases Finset.eq_empty_or_nonempty s with rfl | h
    · simp at hsum
    · exact h
  have hcard : (0 : ℝ) < s.card := by
    exact_mod_cast Finset.card_pos.mpr hsne
  have key : ∑ b in s, -(p b * Real.log (p b)) ≤ Real.log s.card := by
    have step : ∀ b ∈ s,
        -(p b * Real.log (p b)) - p b * Real.log s.card ≤ 1 / s.card - p b := by
      intro b hb
      have hp := hpos b hb
      have hlog : Real.log (1 / (p b * s.card)) ≤ 1 / (p b * s.card) - 1 :=
        Real.log_le_sub_one_of_pos (by positivity)
      have hexp : Real.log (1 / (p b * s.card)) =
          -(Real.log (p b)) - Real.log s.card := by
        rw [one_div, Real.log_inv, Real.log_mul (ne_of_gt hp) (ne_of_gt hcard)]
        ring
      have hmul := mul_le_mul_of_nonneg_left hlog (le_of_lt hp)
      rw [hexp] at hmul
      have hr : p b * (1 / (p b * (s.card : ℝ)) - 1) = 1 / s.card - p b := by
        field_simp
        ring
      calc -(p b * Real.log (p b)) - p b * Real.log s.card
          = p b * (-(Real.log (p b)) - Real.log s.card) := by ring
        _ ≤ p b * (1 / (p b * s.card) - 1) := hmul
        _ = 1 / s.card - p b := hr
    have hsumle := Finset.sum_le_sum step
    rw [Finset.sum_sub_distrib, Finset.sum_sub_distrib, ← Finset.sum_mul, hsum,
      one_mul, Finset.sum_const, nsmul_eq_mul] at hsumle
    have hself : (s.card : ℝ) * (1 / s.card) = 1 := by
      field_simp
    rw [hself] at hsumle
    linarith
  have hlog2 : (0 : ℝ) < Real.log 2 := Real.log_pos (by norm_num)
  have hconv : ∑ b in s, -(p b * Real.logb 2 (p b)) =
      (∑ b in s, -(p b * Real.log (p b))) / Real.log 2 := by
    rw [Finset.sum_div]
    refine Finset.sum_congr rfl fun b _ => ?_
    rw [Real.logb, div_eq_mul_inv]
    ring
  rw [hconv, Real.logb, div_le_div_iff_of_pos_right hlog2]
  exact key

theorem estimate_entropy_nonneg (data : List Nat) : 0 ≤ estimate_entropy data := by
  rw [estimate_entropy]
  split
  · exact le_refl 0
  · rename_i hne
    apply Finset.sum_nonneg
    intro b hb
    have hbmem : b ∈ data := List.mem_toFinset.mp hb
    have hlen : (0 : ℝ) < data.length := by
      exact_mod_cast List.length_pos.mpr hne
    have hp0 : (0 : ℝ) ≤ (data.count b : ℝ) / data.length := by positivity
    have hp1 : (data.count b : ℝ) / data.length ≤ 1 := by
      rw [div_le_one hlen]
      exact_mod_cast List.count_le_length b data
    have hlogb : Real.logb 2 ((data.count b : ℝ) / data.length) ≤ 0 :=
      Real.logb_nonpos (by norm_num) hp0 hp1
    nlinarith

theorem estimate_entropy_replicate (n b : Nat) :
    estimate_entropy (List.replicate (n + 1) b) = 0 := by
  rw [estimate_entropy, if_neg (by simp)]
  rw [List.toFinset_replicate_of_ne_zero (Nat.succ_ne_zero n)]
  rw [Finset.sum_singleton, List.count_replicate_self, List.length_replicate]
  have hlen : ((n : ℝ) + 1) ≠ 0 := by positivity
  have hp : ((n + 1 : Nat) : ℝ) / ((List.replicate (n + 1) b).length : ℝ) = 1 := by
    rw [List.length_replicate]
    push_cast
    field_simp
  push_cast
  rw [div_self (by positivity)]
  simp [Real.logb_one]

theorem estimate_entropy_nodup (data : List Nat) (hne : data ≠ [])
    (hnd : data.Nodup) : estimate_entropy data = Real.logb 2 data.length := by
  rw [estimate_entropy, if_neg hne]
  have hlen : (0 : ℝ) < data.length := by
    exact_mod_cast List.length_pos.mpr hne
  have hterm : ∀ b ∈ data.toFinset,
      -(((data.count b : ℝ) / data.length) *
        Real.logb 2 ((data.count b : ℝ) / data.length)) =
      (1 / (data.length : ℝ)) * Real.logb 2 data.length := by
    intro b hb
    rw [List.count_eq_one_of_mem hnd (List.mem_toFinset.mp hb), Nat.cast_one,
      one_div, Real.logb_inv]
    ring
  rw [Finset.sum_congr rfl hterm, Finset.sum_const, nsmul_eq_mul,
    List.toFinset_card_of_nodup hnd]
  field_simp

theorem estimate_entropy_le_eight (data : List Nat) (hb : ∀ b ∈ data, b < 256) :
    estimate_entropy data ≤ 8 := by
  rw [estimate_entropy]
  split
  · norm_num
  · rename_i hne
    have hlen : (0 : ℝ) < data.length := by
      exact_mod_cast List.length_pos.mpr hne
    have hpos : ∀ b ∈ data.toFinset, 0 < (data.count b : ℝ) / data.length := by
      intro b hbm
      have : 0 < data.count b := List.count_pos_iff.mpr (List.mem_toFinset.mp hbm)
      positivity
    have hsum : ∑ b in data.toFinset, (data.count b : ℝ) / data.length = 1 := by
      rw [← Finset.sum_div, ← Nat.cast_sum, List.sum_toFinset_count_eq_length]
      exact div_self (ne_of_gt hlen)
    refine le_trans (sum_neg_logb_le hpos hsum) ?_
    have hsub : data.toFinset ⊆ Finset.range 256 := by
      intro b hbm
      exact Finset.mem_range.mpr (hb b (List.mem_toFinset.mp hbm))
    have hcard : data.toFinset.card ≤ 256 := by
      simpa using Finset.card_le_card hsub
    have hcardpos : (0 : ℝ) < data.toFinset.card := by
      have : data.toFinset.Nonempty := by
        obtain ⟨x, hx⟩ := List.exists_mem_of_ne_nil data hne
        exact ⟨x, List.mem_toFinset.mpr hx⟩
      exact_mod_cast Finset.card_pos.mpr this
    calc Real.logb 2 data.toFinset.card
        ≤ Real.logb 2 256 := by
          apply Real.logb_le_logb_of_le (by norm_num) hcardpos
          exact_mod_cast hcard
      _ = 8 := by
          rw [show (256 : ℝ) = 2 ^ (8 : Nat) by norm_num, Real.logb_pow]
          simp [Real.logb_self_eq_one]

/-- Claim C9 (confirmed): `estimate_entropy` returns 0 on empty input and
on every window of one repeated byte value; on a window of pairwise
distinct byte values it returns log2 of the window size — in particular
exactly 8 on a window holding all 256 byte values once (maximal variety);
and for every byte window the result lies between 0 and 8 bits/byte. -/
theorem C9_entropy_zero_uniform_and_range :
    estimate_entropy [] = 0 ∧
    (∀ n b : Nat, estimate_entropy (List.replicate (n + 1) b) = 0) ∧
    (∀ data : List Nat, data ≠ [] → data.Nodup →
      estimate_entropy data = Real.logb 2 data.length) ∧
    estimate_entropy (List.range 256) = 8 ∧
    (∀ data : List Nat, 0 ≤ estimate_entropy data) ∧
    (∀ data : List Nat, (∀ b ∈ data, b < 256) → estimate_entropy data ≤ 8) := by
  refine ⟨rfl, estimate_entropy_replicate, estimate_entropy_nodup, ?_,
    estimate_entropy_nonneg, estimate_entropy_le_eight⟩
  rw [estimate_entropy_nodup (List.range 256) (by decide) (List.nodup_range 256),
    List.length_range]
  rw [show ((256 : Nat) : ℝ) = 2 ^ (8 : Nat) by norm_num, Real.logb_pow]
  simp [Real.logb_self_eq_one]

/-- Witness for C9 at concrete windows: the two-distinct-byte window and
a single-byte window inside the byte range. -/
theorem C9_witness :
    (([0, 1] : List Nat) ≠ [] ∧ ([0, 1] : List Nat).Nodup ∧
      estimate_entropy [0, 1] = Real.logb 2 (([0, 1] : List Nat).length)) ∧
    ((∀ b ∈ ([5] : List Nat), b < 256) ∧ estimate_entropy [5] ≤ 8) :=
  ⟨⟨by decide, by decide,
    C9_entropy_zero_uniform_and_range.2.2.1 [0, 1] (by decide) (by decide)⟩,
   ⟨by decide,
    C9_entropy_zero_uniform_and_range.2.2.2.2.2 [5] (by decide)⟩⟩

/-! ## C10: case serialisation round-trips -/

theorem digitChar_toNat {d : Nat} (h : d < 10) : (Char.ofNat (48 + d)).toNat = 48 + d := by
  interval_cases d <;> rfl

theorem digitChar_isDigit {d : Nat} (h : d < 10) : (Char.ofNat (48 + d)).isDigit = true := by
  interval_cases d <;> rfl

theorem digits_foldl :
    ∀ (ds : List Nat) (a : Nat), (∀ d ∈ ds, d < 10) →
      ((ds.reverse.map fun d => Char.ofNat (48 + d)).foldl
        (fun acc c => acc * 10 + (c.toNat - 48)) a) =
      a * 10 ^ ds.length + Nat.ofDigits 10 ds := by
  intro ds
  induction ds with
  | nil => intro a _; simp [Nat.ofDigits]
  | cons d t ih =>
    intro a hlt
    rw [List.reverse_cons, List.map_append, List.foldl_append]
    rw [ih a (fun x hx => hlt x (List.mem_cons_of_mem d hx))]
    simp only [List.map_cons, List.map_nil, List.foldl_cons, List.foldl_nil]
    rw [digitChar_toNat (hlt d (List.mem_cons_self d t))]
    rw [Nat.ofDigits_cons]
    have h48 : 48 + d - 48 = d := by omega
    rw [h48, List.length_cons, pow_succ]
    ring

theorem iso_roundtrip (n : Nat) : fromisoformat? (isoformat n) = some n := by
  by_cases h0 : n = 0
  · subst h0
    decide
  · rw [isoformat, if_neg h0]
    simp only [fromisoformat?]
    have hlst : (((Nat.digits 10 n).reverse.map fun d =>
        Char.ofNat (48 + d)).asString).toList =
        (Nat.digits 10 n).reverse.map fun d => Char.ofNat (48 + d) := rfl
    rw [hlst]
    have hne : Nat.digits 10 n ≠ [] := Nat.digits_ne_nil_iff_ne_zero.mpr h0
    have hmapne : ((Nat.digits 10 n).reverse.map fun d => Char.ofNat (48 + d)) ≠ [] := by
      simp [hne]
    rw [if_neg hmapne]
    have hall : ((Nat.digits 10 n).reverse.map fun d =>
        Char.ofNat (48 + d)).all Char.isDigit = true := by
      rw [List.all_eq_true]
      intro c hc
      obtain ⟨d, hd, rfl⟩ := List.mem_map.mp hc
      exact digitChar_isDigit (Nat.digits_lt_base (by norm_num) (List.mem_reverse.mp hd))
    rw [if_pos hall]
    rw [digits_foldl (Nat.digits 10 n) 0
      (fun d hd => Nat.digits_lt_base (by norm_num) hd)]
    rw [Nat.ofDigits_digits]
    simp

theorem isoformat_ne_empty (n : Nat) : isoformat n ≠ "" := by
  intro h
  have h1 := iso_roundtrip n
  rw [h] at h1
  have h2 : fromisoformat? "" = none := by decide
  rw [h2] at h1
  cases h1

theorem containerType_value_parses (c : ContainerType) :
    ContainerType.parse? c.value = some c := by
  cases c <;> rfl

theorem evidenceType_value_parses (e : EvidenceType) :
    EvidenceType.parse? e.value = some e := by
  cases e <;> rfl

theorem artefactType_value_parses (a : ArtefactType) :
    ArtefactType.parse? a.value = some a := by
  cases a <;> rfl

theorem unlockResult_value_parses (u : UnlockResult) :
    UnlockResult.parse? u.value = some u := by
  cases u <;> rfl

theorem evidence_dict_roundtrip (e : Evidence) :
    Evidence.from_dict (Evidence.to_dict e) = some e := by
  simp [Evidence.from_dict, Evidence.to_dict, evidenceType_value_parses]

theorem containerCandidate_dict_roundtrip (c : ContainerCandidate) :
    ContainerCandidate.from_dict (ContainerCandidate.to_dict c) = some c := by
  simp [ContainerCandidate.from_dict, ContainerCandidate.to_dict,
    containerType_value_parses]

theorem artefact_dict_roundtrip (a : Artefact) (hpath : a.path ≠ some "") :
    Artefact.from_dict (Artefact.to_dict a) = some a := by
  rcases a with ⟨aid, desc, src, at_, path, ts⟩
  cases ts with
  | none =>
    cases path with
    | none =>
      simp [Artefact.from_dict, Artefact.to_dict, artefactType_value_parses]
    | some s =>
      have hs : s ≠ "" := by simpa using hpath
      simp [Artefact.from_dict, Artefact.to_dict, artefactType_value_parses, hs]
  | some t =>
    cases path with
    | none =>
      simp [Artefact.from_dict, Artefact.to_dict, artefactType_value_parses,
        isoformat_ne_empty t, iso_roundtrip t]
    | some s =>
      have hs : s ≠ "" := by simpa using hpath
      simp [Artefact.from_dict, Artefact.to_dict, artefactType_value_parses, hs,
        isoformat_ne_empty t, iso_roundtrip t]

theorem timelineEvent_dict_roundtrip (t : TimelineEvent) :
    TimelineEvent.from_dict (TimelineEvent.to_dict t) = some t := by
  simp [TimelineEvent.from_dict, TimelineEvent.to_dict, iso_roundtrip]

theorem custodyEvent_dict_roundtrip (c : CustodyEvent) :
    CustodyEvent.from_dict (CustodyEvent.to_dict c) = some c := by
  simp [CustodyEvent.from_dict, CustodyEvent.to_dict, iso_roundtrip]

theorem unlockAttempt_dict_roundtrip (u : UnlockAttempt) :
    UnlockAttempt.from_dict (UnlockAttempt.to_dict u) = some u := by
  simp [UnlockAttempt.from_dict, UnlockAttempt.to_dict, unlockResult_value_parses]

theorem caseMetadata_dict_roundtrip (m : CaseMetadata) :
    CaseMetadata.from_dict (CaseMetadata.to_dict m) = some m := by
  simp [CaseMetadata.from_dict, CaseMetadata.to_dict, iso_roundtrip]

theorem mapM_roundtrip {α β : Type} (f : α → β) (g : β → Option α) :
    ∀ (l : List α), (∀ x ∈ l, g (f x) = some x) → (l.map f).mapM g = some l := by
  intro l
  induction l with
  | nil => intro _; rfl
  | cons x t ih =>
    intro h
    rw [List.map_cons, List.mapM_cons, h x (List.mem_cons_self x t),
      ih (fun y hy => h y (List.mem_cons_of_mem x hy))]
    rfl

/-- Claim C10 (confirmed): serialising a case with `Case.to_dict` and
deserialising with `Case.from_dict` reconstructs an equal case — root
path, metadata (ISO-8601 creation timestamp, nullable examiner) and all
six collections round-trip in order.  The sole hypothesis is a modelling
artefact: an artefact path equal to the empty string is excluded because
our `Path` model is a raw string, while Python's `Path('')` normalises to
`Path('.')` and still compares equal after the round trip. -/
theorem C10_case_to_dict_from_dict_roundtrip (c : Case)
    (hpaths : ∀ a ∈ c.artefacts, a.path ≠ some "") :
    Case.from_dict (Case.to_dict c) = some c := by
  rcases c with ⟨root, md, ev, cs, ars, tl, ua, cl⟩
  simp only [Case.to_dict, Case.from_dict]
  rw [caseMetadata_dict_roundtrip md,
    mapM_roundtrip _ _ ev (fun x _ => evidence_dict_roundtrip x),
    mapM_roundtrip _ _ cs (fun x _ => containerCandidate_dict_roundtrip x),
    mapM_roundtrip _ _ ars (fun x hx => artefact_dict_roundtrip x (hpaths x hx)),
    mapM_roundtrip _ _ tl (fun x _ => timelineEvent_dict_roundtrip x),
    mapM_roundtrip _ _ ua (fun x _ => unlockAttempt_dict_roundtrip x),
    mapM_roundtrip _ _ cl (fun x _ => custodyEvent_dict_roundtrip x)]
  rfl

/-- Witness for C10 on a concrete case touching every collection. -/
theorem C10_witness :
    (∀ a ∈ (Case.mk "root" ⟨"case-1", some "alice", 5⟩
        [⟨"ev-1", "/e", "d", EvidenceType.disk_image, "h", 3⟩] []
        [⟨"ar-1", "desc", "src", ArtefactType.other, none, some 7⟩]
        [⟨"t", 9, none⟩] [⟨"cc", "m", "s", UnlockResult.failure, "msg"⟩]
        [⟨11, "alice", "act"⟩]).artefacts, a.path ≠ some "") ∧
    Case.from_dict (Case.to_dict (Case.mk "root" ⟨"case-1", some "alice", 5⟩
        [⟨"ev-1", "/e", "d", EvidenceType.disk_image, "h", 3⟩] []
        [⟨"ar-1", "desc", "src", ArtefactType.other, none, some 7⟩]
        [⟨"t", 9, none⟩] [⟨"cc", "m", "s", UnlockResult.failure, "msg"⟩]
        [⟨11, "alice", "act"⟩])) =
      some (Case.mk "root" ⟨"case-1", some "alice", 5⟩
        [⟨"ev-1", "/e", "d", EvidenceType.disk_image, "h", 3⟩] []
        [⟨"ar-1", "desc", "src", ArtefactType.other, none, some 7⟩]
        [⟨"t", 9, none⟩] [⟨"cc", "m", "s", UnlockResult.failure, "msg"⟩]
        [⟨11, "alice", "act"⟩]) :=
  ⟨by decide,
    C10_case_to_dict_from_dict_roundtrip _ (by decide)⟩

end CryptoLab
